import Mathlib

/-!
Verification of the StudentPairingTool pairing algorithm.

This file shallowly embeds `src/models/pairing_model.py` (class
`PairingAlgorithm`) in Lean.  Python dictionaries holding student records
become a `Student` structure; a session record's list of groups becomes a
`List (List SId)`; the `frozenset` pair keys become `Finset SId`; the
`float` scores (which take the values `inf`, integers and `10 * 0.9 ** k`)
become `Score`, infinity adjoined to exact decimal rationals ordered by
cross-multiplication; the calls to `random.shuffle` become applications of an
explicit shuffle oracle `Rand`, one indexed call per dynamic shuffle site,
quantified over all permutation-producing oracles in the theorems.
-/

namespace StudentPairing

/-- Student ids are Python strings (`student["id"]`). -/
abbrev SId := String

/-- A group is a list of student ids, as in the Python code. -/
abbrev Group := List SId

/-- A prior session, reduced to what `_preprocess_constraints` reads from it:
the list `session["pairs"]`, each entry reduced to its `"student_ids"` list. -/
abbrev Session := List (List SId)

/-- Pair keys are `frozenset([a, b])`. -/
abbrev PK := Finset SId

/-- A student record, with the fields of `student_model.Student` that the
algorithm reads and writes. -/
structure Student where
  id : SId
  name : String
  track : String
  times_in_group_of_three : Nat
  times_in_group_of_four : Nat
deriving DecidableEq, Repr

def defaultStudent : Student := ⟨"", "", "", 0, 0⟩

/-- Shuffle oracle standing for `random.shuffle`: the `k`-th dynamic shuffle
of a list of ids (resp. of groups / of candidate combinations) in a run is
modelled as `shuffleIds k` (resp. `shuffleGroups k`). -/
structure Rand where
  shuffleIds : Nat → List SId → List SId
  shuffleGroups : Nat → List Group → List Group

/-- A real `random.shuffle` only ever permutes its argument. -/
def RandOK (R : Rand) : Prop :=
  (∀ k l, (R.shuffleIds k l).Perm l) ∧ (∀ k l, (R.shuffleGroups k l).Perm l)

/-- The oracle whose every shuffle leaves the list unchanged (one of the
possible outcomes of `random.shuffle`). -/
def idRand : Rand := ⟨fun _ l => l, fun _ l => l⟩

/-- `frozenset([a, b])`. -/
def mkPK (a b : SId) : PK := insert a {b}

/-- Association-list lookup, the model of Python `dict` indexing for the
dictionaries built here (which never hold a key twice). -/
def alook {β : Type} : List (PK × β) → PK → Option β
  | [], _ => none
  | (k', v) :: rest, k => if k' = k then some v else alook rest k

/-- All `frozenset([ids[i], ids[j]])` for `i < j`, in the iteration order of
the double loop in `_preprocess_constraints`. -/
def groupPairKeys : List SId → List PK
  | [] => []
  | x :: xs => xs.map (fun y => mkPK x y) ++ groupPairKeys xs

/-- Pair keys contributed by one session (all groups, in order). -/
def sessionPairKeys (s : Session) : List PK :=
  (s.map groupPairKeys).flatten

/-- One step of filling `recent_pairs` / `forbidden_pairs`: record the key at
the current session index if it is absent, and mark it forbidden when the
index is 0 (the most recent prior session). -/
def addPairKey (idx : Nat) (st : List (PK × Nat) × Finset PK) (k : PK) :
    List (PK × Nat) × Finset PK :=
  if (alook st.1 k).isSome then st
  else ((k, idx) :: st.1, if idx = 0 then insert k st.2 else st.2)

def addSessionKeys (idx : Nat) (s : Session) (st : List (PK × Nat) × Finset PK) :
    List (PK × Nat) × Finset PK :=
  (sessionPairKeys s).foldl (addPairKey idx) st

/-- The indexing loop of `_preprocess_constraints`, iterating sessions from
newest to oldest (the caller passes the reversed session list). -/
def indexGo : List Session → Nat → List (PK × Nat) × Finset PK →
    List (PK × Nat) × Finset PK
  | [], _, st => st
  | s :: rest, idx, st => indexGo rest (idx + 1) (addSessionKeys idx s st)

/-- `self.recent_pairs`: pair key → how many sessions ago (0 = last session). -/
def recentPairs (sessions : List Session) : List (PK × Nat) :=
  (indexGo sessions.reverse 0 ([], ∅)).1

/-- `self.forbidden_pairs`: the pairs of the most recent prior session. -/
def forbiddenPairs (sessions : List Session) : Finset PK :=
  (indexGo sessions.reverse 0 ([], ∅)).2

/-- The algorithm's state after `__init__`: the present students and the
previous sessions (all other fields of `PairingAlgorithm` are derived). -/
structure Ctx where
  students : List Student
  sessions : List Session

def Ctx.ids (ctx : Ctx) : List SId := ctx.students.map (fun s => s.id)

def Ctx.forbidden (ctx : Ctx) : Finset PK := forbiddenPairs ctx.sessions

def Ctx.recent (ctx : Ctx) : List (PK × Nat) := recentPairs ctx.sessions

/-- `self.student_lookup[sid]` (dict comprehension: the last student with a
given id wins). -/
def lookupStudent (students : List Student) (sid : SId) : Option Student :=
  students.reverse.find? (fun s => s.id == sid)

def getG3 (students : List Student) (sid : SId) : Nat :=
  ((lookupStudent students sid).map (fun s => s.times_in_group_of_three)).getD 0

def getTrack (students : List Student) (sid : SId) : String :=
  ((lookupStudent students sid).map (fun s => s.track)).getD ""

/-- An exact decimal rational `n / 10 ^ e`.  Every score the algorithm
manipulates (integer penalties, `10 * 0.9 ** k`, and their sums) has this
form, and the ordering of these values as Python floats is the ordering of
the rationals they denote. -/
structure DecQ where
  n : Int
  e : Nat
deriving DecidableEq, Repr

/-- The rational value of a `DecQ`. -/
def DecQ.val (a : DecQ) : ℚ := (a.n : ℚ) / 10 ^ a.e

def DecQ.add (a b : DecQ) : DecQ := ⟨a.n * 10 ^ b.e + b.n * 10 ^ a.e, a.e + b.e⟩

/-- Exact `<` via cross-multiplication (`10 ^ e > 0`). -/
def DecQ.blt (a b : DecQ) : Bool := a.n * 10 ^ b.e < b.n * 10 ^ a.e

/-- Exact `≤` via cross-multiplication. -/
def DecQ.ble (a b : DecQ) : Bool := a.n * 10 ^ b.e ≤ b.n * 10 ^ a.e

/-- A score: a Python float that is either `float("inf")` or one of the exact
decimal rationals above. -/
inductive Score where
  | inf : Score
  | fin : DecQ → Score
deriving DecidableEq, Repr

/-- Float addition on scores (`inf` absorbs). -/
def Score.add : Score → Score → Score
  | Score.inf, _ => Score.inf
  | Score.fin _, Score.inf => Score.inf
  | Score.fin a, Score.fin b => Score.fin (a.add b)

/-- Float `<` on scores (`inf < inf` is false, `x < inf` is true for finite
`x`, `inf < x` is false). -/
def Score.slt : Score → Score → Bool
  | Score.inf, _ => false
  | Score.fin _, Score.inf => true
  | Score.fin a, Score.fin b => a.blt b

/-- Float `<=` on scores. -/
def Score.sle : Score → Score → Bool
  | Score.inf, Score.inf => true
  | Score.inf, Score.fin _ => false
  | Score.fin _, Score.inf => true
  | Score.fin a, Score.fin b => a.ble b

/-- An integer score. -/
def sInt (i : Int) : Score := Score.fin ⟨i, 0⟩

/-- The recency branch of `_calculate_pair_score` (lines 86-94), as the
rational value the float denotes: the penalty added when the pair last
co-occurred `r` sessions ago. -/
def recencyPenalty (r : Nat) : ℚ :=
  if r = 1 then 100
  else if r = 2 then 50
  else if r < 5 then 25
  else 10 * (9 / 10 : ℚ) ^ (r - 5)

/-- The same penalty as the exact decimal the pipeline computes with
(`10 * 0.9 ** k = (10 * 9 ^ k) / 10 ^ k`). -/
def recencyPenaltyD (r : Nat) : DecQ :=
  if r = 1 then ⟨100, 0⟩
  else if r = 2 then ⟨50, 0⟩
  else if r < 5 then ⟨25, 0⟩
  else ⟨10 * 9 ^ (r - 5), r - 5⟩

def g3diff (students : List Student) (a b : SId) : Nat :=
  max (getG3 students a) (getG3 students b) - min (getG3 students a) (getG3 students b)

/-- `_calculate_pair_score` (forbidden → `inf`, otherwise recency penalty plus
group-of-three balance term). -/
def calcPairScore (ctx : Ctx) (a b : SId) : Score :=
  if mkPK a b ∈ ctx.forbidden then Score.inf
  else
    Score.fin (DecQ.add
      (match alook ctx.recent (mkPK a b) with
       | some r => recencyPenaltyD r
       | none => ⟨0, 0⟩)
      ⟨(g3diff ctx.students a b : Int) * 2, 0⟩)

/-- All ordered position pairs `(l[i], l[j])` with `i < j`, in the order of
the nested loops used throughout the Python file. -/
def allPairs {α : Type} : List α → List (α × α)
  | [] => []
  | x :: xs => xs.map (fun y => (x, y)) ++ allPairs xs

/-- `self.pair_scores`: one entry per unordered pair of `student_ids`. -/
def pairScoresList (ctx : Ctx) : List (PK × Score) :=
  (allPairs ctx.ids).map (fun p => (mkPK p.1 p.2, calcPairScore ctx p.1 p.2))

/-- `self.pair_scores.get(pair_key, 0)`. -/
def scoreGet (ctx : Ctx) (k : PK) : Score :=
  (alook (pairScoresList ctx) k).getD (sInt 0)

/-- `_get_track_bonus` (any preference other than "none"/"same" behaves like
"different", as in the Python `else` branch). -/
def trackBonus (ctx : Ctx) (a b : SId) (pref : String) : Score :=
  if pref = "none" then sInt 0
  else if pref = "same" then
    (if getTrack ctx.students a = getTrack ctx.students b then sInt 0 else sInt 5)
  else
    (if getTrack ctx.students a = getTrack ctx.students b then sInt 5 else sInt 0)

/-- `self.student_constraints.get(sid, 0)`: the number of forbidden pairs a
(present) student appears in. -/
def studentConstraints (ctx : Ctx) (sid : SId) : Nat :=
  if (lookupStudent ctx.students sid).isSome then
    (ctx.forbidden.filter (fun k => sid ∈ k)).card
  else 0

/-- Insert into a sorted list, before the first element that may follow it.
Part of `sSort` below. -/
def sIns {α : Type} (le : α → α → Bool) (a : α) : List α → List α
  | [] => [a]
  | b :: l => if le a b then a :: b :: l else b :: sIns le a l

/-- Stable sort by a total boolean preorder.  A stable sort's output is
determined by the preorder alone (sortedness plus original order on ties), so
this is the same function Python's stable `sort`/`sorted` computes. -/
def sSort {α : Type} (le : α → α → Bool) : List α → List α
  | [] => []
  | a :: l => sIns le a (sSort le l)

/-- The `best_score = float("inf"); for c in cands: if valid: s = score c;
if s < best_score: best = c` selection pattern used throughout the file.
Ties keep the first candidate, exactly as strict `<` does in Python. -/
def bestBy {α : Type} (valid : α → Bool) (score : α → Score) (cands : List α) :
    Option α × Score :=
  cands.foldl
    (fun b c =>
      if valid c then
        if Score.slt (score c) b.2 then (some c, score c) else b
      else b)
    (none, Score.inf)

/-- Python truthiness of an optional student id: `None` and `""` are falsy. -/
def pyTruthy : Option SId → Bool
  | none => false
  | some s => !(s == "")

/-- The strict partner search of `_build_pairs_incrementally` (lines 207-223):
forbidden pairs are skipped, the best remaining partner by score wins. -/
def strictBest (ctx : Ctx) (pref : String) (s1 : SId) (rem : List SId) :
    Option SId × Score :=
  bestBy (fun s2 => !(decide (mkPK s1 s2 ∈ ctx.forbidden)))
    (fun s2 => Score.add (scoreGet ctx (mkPK s1 s2)) (trackBonus ctx s1 s2 pref)) rem

/-- The relaxed score (lines 240-245): forbidden pairs cost 10000 instead of
`inf`. -/
def relaxedScore (ctx : Ctx) (pref : String) (s1 s2 : SId) : Score :=
  if mkPK s1 s2 ∈ ctx.forbidden then sInt 10000
  else Score.add (scoreGet ctx (mkPK s1 s2)) (trackBonus ctx s1 s2 pref)

/-- The relaxed partner search (lines 234-249). -/
def relaxedBest (ctx : Ctx) (pref : String) (s1 : SId) (rem : List SId) :
    Option SId × Score :=
  bestBy (fun _ => true) (fun s2 => relaxedScore ctx pref s1 s2) rem

/-- The `while len(remaining) >= 2` loop of `_build_pairs_incrementally`
(lines 195-259).  Returns the groups built so far, the remaining pool at loop
exit, and whether the loop exited through the final `break` (the branch that
re-appends `student1` after even the relaxed search came back falsy).
`fuel` only bounds the iterations: each iteration shortens the pool by 2, so
the `remaining.length + 1` the caller passes is never exhausted. -/
def buildLoop (ctx : Ctx) (pref : String) :
    Nat → List SId → List Group → List Group × List SId × Bool
  | 0, remaining, pairs => (pairs, remaining, false)
  | fuel + 1, remaining, pairs =>
    if remaining.length < 2 then (pairs, remaining, false)
    else if remaining.length = 3 then (pairs ++ [remaining], [], false)
    else
      match remaining with
      | [] => (pairs, [], false)
      | s1 :: rest =>
        let bp := (strictBest ctx pref s1 rest).1
        if pyTruthy bp then
          buildLoop ctx pref fuel (rest.erase (bp.getD "")) (pairs ++ [[s1, bp.getD ""]])
        else
          let rp := (relaxedBest ctx pref s1 rest).1
          if pyTruthy rp then
            buildLoop ctx pref fuel (rest.erase (rp.getD "")) (pairs ++ [[s1, rp.getD ""]])
          else (pairs, rest ++ [s1], true)

/-- The cost of merging student `x` into group `g` (lines 274-284 and
770-779): forbidden additions cost 5000, others their pair score. -/
def hostScore (ctx : Ctx) (x : SId) (g : Group) : Score :=
  g.foldl
    (fun acc y =>
      Score.add acc
        (if mkPK x y ∈ ctx.forbidden then sInt 5000 else scoreGet ctx (mkPK x y)))
    (sInt 0)

/-- The best size-2 group to turn into a triplet for student `x` (`None` when
no size-2 group exists). -/
def bestHostIdx (ctx : Ctx) (ps : List Group) (x : SId) : Option Nat :=
  ((bestBy (fun e => e.2.length == 2) (fun e => hostScore ctx x e.2) ps.enum).1).map
    (fun e => e.1)

/-- Lines 263-299: place a single leftover student, preferring to extend the
best size-2 group, creating a singleton group only as last resort. -/
def addSingleStudent (ctx : Ctx) (ps : List Group) (x : SId) : List Group :=
  match bestHostIdx ctx ps x with
  | some i => ps.set i (ps.getD i [] ++ [x])
  | none => ps ++ [[x]]

/-- The `while len(remaining) >= 2` pairing-off loop of lines 302-305. -/
def pairUp : List SId → List Group → List Group × List SId
  | a :: b :: rest, ps => pairUp rest (ps ++ [[a, b]])
  | rem, ps => (ps, rem)

/-- Lines 261-315: handle whatever the main loop left unpaired.  (`pairUp`
leaves at most one student, `remaining[0]`, i.e. the head.) -/
def handleRemaining (ctx : Ctx) (ps : List Group) (rem : List SId) : List Group :=
  if rem.isEmpty then ps
  else if rem.length = 1 then addSingleStudent ctx ps (rem.headD "")
  else
    let pr := pairUp rem ps
    if pr.2.isEmpty then pr.1
    else if pr.1.isEmpty then pr.1 ++ [pr.2]
    else pr.1.set 0 (pr.1.getD 0 [] ++ [pr.2.headD ""])

/-- `_build_pairs_incrementally` (lines 183-316): sort by constraint level
(Python's stable `sort(reverse=True)`), run the main loop, then handle the
leftovers. -/
def buildPairsIncrementally (ctx : Ctx) (avail : List SId) (pref : String) :
    List Group :=
  let sorted := sSort
    (fun a b => decide (studentConstraints ctx b ≤ studentConstraints ctx a)) avail
  let r := buildLoop ctx pref (sorted.length + 1) sorted []
  handleRemaining ctx r.1 r.2.1

/-- First index of a minimal-length group (`min(range(len(pairs)), key=...)`). -/
def smallestIdx (ps : List Group) : Nat :=
  (((bestBy (fun _ => true) (fun e => sInt (e.2.length : Int)) ps.enum).1).map
    (fun e => e.1)).getD 0

/-- One redistribution step of `_eliminate_singletons_normal_mode`
(lines 763-796). -/
def elimStep (ctx : Ctx) (ps : List Group) (x : SId) : List Group :=
  match bestHostIdx ctx ps x with
  | some i => ps.set i (ps.getD i [] ++ [x])
  | none =>
    if ps.isEmpty then ps ++ [[x]]
    else ps.set (smallestIdx ps) (ps.getD (smallestIdx ps) [] ++ [x])

/-- `_eliminate_singletons_normal_mode` (lines 744-798). -/
def eliminateSingletonsNormalMode (ctx : Ctx) (ps : List Group) : List Group :=
  let singletons := ps.filter (fun g => g.length == 1)
  if singletons.isEmpty then ps
  else
    (singletons.reverse.map (fun g => g.headD "")).foldl (elimStep ctx)
      (ps.filter (fun g => !(g.length == 1)))

/-- `_track_satisfaction_score` (lines 380-392). -/
def trackSat (ctx : Ctx) (g : Group) (pref : String) : Nat :=
  if g.length ≠ 2 ∨ pref = "none" then 0
  else if pref = "same" then
    (if getTrack ctx.students (g.getD 0 "") = getTrack ctx.students (g.getD 1 "") then 1 else 0)
  else
    (if getTrack ctx.students (g.getD 0 "") = getTrack ctx.students (g.getD 1 "") then 0 else 1)

/-- `_is_valid_pair` (lines 394-405). -/
def isValidPair (ctx : Ctx) (g : Group) : Bool :=
  (allPairs g).all (fun p => !(decide (mkPK p.1 p.2 ∈ ctx.forbidden)))

/-- One candidate swap of `_optimize_track_preferences` (lines 344-370):
`None` when it is skipped or not strictly improving. -/
def trySwap (ctx : Ctx) (pref : String) (ps : List Group) (i j idx1 idx2 : Nat) :
    Option (List Group) :=
  let pair1 := ps.getD i []
  let pair2 := ps.getD j []
  if pair1.length = 2 ∧ pair2.length = 2 then
    let np1 := pair1.set idx1 (pair2.getD idx2 "")
    let np2 := pair2.set idx2 (pair1.getD idx1 "")
    if isValidPair ctx np1 ∧ isValidPair ctx np2 then
      if trackSat ctx pair1 pref + trackSat ctx pair2 pref <
          trackSat ctx np1 pref + trackSat ctx np2 pref then
        some ((ps.set i np1).set j np2)
      else none
    else none
  else none

/-- One pass of the optimizer: the first strictly improving valid swap in the
nested `i < j`, `idx1`, `idx2` loop order, applied; `None` when no swap
improves (the pass leaves `improved` false). -/
def findSwap (ctx : Ctx) (pref : String) (ps : List Group) : Option (List Group) :=
  (List.range ps.length).findSome? (fun i =>
    ((List.range ps.length).drop (i + 1)).findSome? (fun j =>
      [0, 1].findSome? (fun idx1 =>
        [0, 1].findSome? (fun idx2 => trySwap ctx pref ps i j idx1 idx2))))

/-- The `while improved and iteration < max_iterations` loop (lines 332-376),
with its budget of 10 passes. -/
def optIter (ctx : Ctx) (pref : String) : Nat → List Group → List Group
  | 0, ps => ps
  | n + 1, ps =>
    match findSwap ctx pref ps with
    | some ps2 => optIter ctx pref n ps2
    | none => ps

/-- `_optimize_track_preferences` (lines 318-378). -/
def optimizeTrackPreferences (ctx : Ctx) (ps : List Group) (pref : String) :
    List Group :=
  if pref = "none" ∨ ps.length < 2 then ps else optIter ctx pref 10 ps

/-- The candidate triplets rooted at `student1` (lines 143-170), with their
scores: forbidden-containing triplets are skipped, the score is the sum of the
three pair scores plus 5 × the spread of the group-of-three counts. -/
def tripletCandidates (ctx : Ctx) (s1 : SId) (rem : List SId) :
    List (List SId × Score) :=
  ((allPairs rem).filter (fun p =>
      !(decide (mkPK s1 p.1 ∈ ctx.forbidden) || decide (mkPK s1 p.2 ∈ ctx.forbidden) ||
        decide (mkPK p.1 p.2 ∈ ctx.forbidden)))).map
    (fun p =>
      ([s1, p.1, p.2],
        Score.add
          (Score.add (Score.add (scoreGet ctx (mkPK s1 p.1)) (scoreGet ctx (mkPK s1 p.2)))
            (scoreGet ctx (mkPK p.1 p.2)))
          (sInt ((max (getG3 ctx.students s1) (max (getG3 ctx.students p.1) (getG3 ctx.students p.2)) -
               min (getG3 ctx.students s1) (min (getG3 ctx.students p.1) (getG3 ctx.students p.2)) : Nat) * 5))))

/-- Lines 140-175: the best candidate triplet for one starting student
(Python's stable sort by score followed by taking the head). -/
def bestCandOf (ctx : Ctx) (avail : List SId) (s1 : SId) : Option (List SId × Score) :=
  (sSort (fun x y => Score.sle x.2 y.2)
    (tripletCandidates ctx s1 (avail.filter (fun s => !(s == s1))))).head?

/-- `_find_best_triplet` (lines 117-181). -/
def findBestTriplet (ctx : Ctx) (avail : List SId) : Option (List SId) :=
  if avail.length < 3 then none
  else
    let sorted := sSort
      (fun a b => decide (getG3 ctx.students a ≤ getG3 ctx.students b)) avail
    ((bestBy (fun s1 => (bestCandOf ctx avail s1).isSome)
        (fun s1 => ((bestCandOf ctx avail s1).map (fun e => e.2)).getD Score.inf)
        (sorted.take (min sorted.length 5))).1).map
      (fun s1 => ((bestCandOf ctx avail s1).map (fun e => e.1)).getD [])

/-- `for student_id in group: remaining.remove(student_id)`. -/
def removeAll (rem : List SId) (g : Group) : List SId :=
  g.foldl (fun r x => r.erase x) rem

/-- The can-this-student-join-this-group check used in
`_generate_larger_groups` (no forbidden pair with any member). -/
def canAddToGroup (ctx : Ctx) (x : SId) (g : Group) : Bool :=
  g.all (fun y => !(decide (mkPK x y ∈ ctx.forbidden)))

/-- Lines 469-489: how many groups of 3 and of 4 to aim for. -/
def groupTargets (total : Nat) : Nat × Nat :=
  if total % 3 = 0 then (total / 3, 0)
  else if total % 3 = 1 then ((total - 4) / 3, 1)
  else if 8 ≤ total then ((total - 8) / 3, 2)
  else (total / 3, 0)

/-- `_find_best_larger_group` (lines 633-677): sample up to 20 shuffled
combinations (the `k`-th dynamic shuffle of the run) and keep the best valid
one. -/
def findBestLargerGroup (ctx : Ctx) (R : Rand) (k : Nat) (avail : List SId)
    (size : Nat) (pref : String) : Option Group :=
  if avail.length < size then none
  else
    let combos := List.sublistsLen size avail
    let shuffled := (R.shuffleGroups k combos).take (min 20 combos.length)
    (bestBy (fun g => isValidPair ctx g)
      (fun g =>
        (allPairs g).foldl
          (fun acc p =>
            Score.add (Score.add acc (scoreGet ctx (mkPK p.1 p.2)))
              (trackBonus ctx p.1 p.2 pref))
          (sInt 0))
      shuffled).1

/-- `_find_best_pair_from_list` (lines 679-707). -/
def findBestPairFromList (ctx : Ctx) (avail : List SId) (pref : String) :
    Option Group :=
  if avail.length < 2 then none
  else
    ((bestBy (fun p => !(decide (mkPK p.1 p.2 ∈ ctx.forbidden)))
        (fun p => Score.add (scoreGet ctx (mkPK p.1 p.2)) (trackBonus ctx p.1 p.2 pref))
        (allPairs avail)).1).map (fun p => [p.1, p.2])

/-- The planned groups-of-4 loop (lines 496-507).  The first component of the
fuel pair is the number of groups of 4 still wanted. -/
def phase1 (ctx : Ctx) (R : Rand) (pref : String) :
    Nat → Nat → List SId → List Group → List Group × List SId × Nat
  | 0, k, rem, groups => (groups, rem, k)
  | n + 1, k, rem, groups =>
    if rem.length < 4 then (groups, rem, k)
    else
      match findBestLargerGroup ctx R k rem 4 pref with
      | some g => phase1 ctx R pref n (k + 1) (removeAll rem g) (groups ++ [g])
      | none => (groups, rem, k + 1)

/-- The groups-of-3 loop (lines 510-519).  `fuel` bounds the iterations; any
real run needs at most `rem.length` of them (each success removes members of
`rem`), so the callers pass `rem.length + 1`. -/
def phase2 (ctx : Ctx) (R : Rand) (pref : String) :
    Nat → Nat → List SId → List Group → List Group × List SId × Nat
  | 0, k, rem, groups => (groups, rem, k)
  | fuel + 1, k, rem, groups =>
    if rem.length < 3 then (groups, rem, k)
    else
      match findBestLargerGroup ctx R k rem 3 pref with
      | some g => phase2 ctx R pref fuel (k + 1) (removeAll rem g) (groups ++ [g])
      | none => (groups, rem, k + 1)

/-- Lines 527-546: groups sorted by size with their original indices. -/
def sortedByLen (groups : List Group) : List (Nat × Group) :=
  sSort (fun a b => decide (a.2.length ≤ b.2.length)) groups.enum

/-- Lines 524-546: try to add a last student to an existing group of < 4. -/
def addSingleLarger (ctx : Ctx) (groups : List Group) (x : SId) :
    Option (List Group) :=
  (sortedByLen groups).findSome? (fun e =>
    if e.2.length < 4 ∧ canAddToGroup ctx x e.2 then
      some (groups.set e.1 (e.2 ++ [x]))
    else none)

/-- Lines 556-582: try to add two last students to an existing group of 2. -/
def addBothToPair (ctx : Ctx) (groups : List Group) (a b : SId) :
    Option (List Group) :=
  groups.enum.findSome? (fun e =>
    if e.2.length = 2 ∧ canAddToGroup ctx a e.2 ∧ canAddToGroup ctx b e.2 ∧
        !(decide (mkPK a b ∈ ctx.forbidden)) then
      some (groups.set e.1 (e.2 ++ [a, b]))
    else none)

/-- Lines 584-602: try to add one of two last students to a group of 3. -/
def addOneToTriple (ctx : Ctx) (groups : List Group) (x : SId) :
    Option (List Group) :=
  groups.enum.findSome? (fun e =>
    if e.2.length = 3 ∧ canAddToGroup ctx x e.2 then
      some (groups.set e.1 (e.2 ++ [x]))
    else none)

/-- The `while len(remaining) > 0` clean-up loop of `_generate_larger_groups`
(lines 521-626).  `fuel` bounds the iterations; every branch of a real run
shrinks `rem` (the group returned by `_find_best_larger_group` is a
combination of `rem`), so the caller's `rem.length + 1` is enough fuel; the
fuel-exhausted case keeps the leftover as one group so that no student is
ever dropped. -/
def phase3 (ctx : Ctx) (R : Rand) (pref : String) :
    Nat → Nat → List SId → List Group → List Group × Nat
  | 0, k, rem, groups => (if rem.isEmpty then groups else groups ++ [rem], k)
  | fuel + 1, k, rem, groups =>
    match rem with
    | [] => (groups, k)
    | [x] =>
      match addSingleLarger ctx groups x with
      | some g2 => phase3 ctx R pref fuel k [] g2
      | none => phase3 ctx R pref fuel k [] (groups ++ [[x]])
    | [a, b] =>
      match addBothToPair ctx groups a b with
      | some g2 => phase3 ctx R pref fuel k [] g2
      | none =>
        match addOneToTriple ctx groups a with
        | some g2 => phase3 ctx R pref fuel k [b] g2
        | none => phase3 ctx R pref fuel k [] (groups ++ [[a, b]])
    | _ =>
      match findBestLargerGroup ctx R k rem 3 pref with
      | some g => phase3 ctx R pref fuel (k + 1) (removeAll rem g) (groups ++ [g])
      | none =>
        match findBestPairFromList ctx rem pref with
        | some p => phase3 ctx R pref fuel (k + 1) (removeAll rem p) (groups ++ [p])
        | none => phase3 ctx R pref fuel (k + 1) rem.tail (groups ++ [rem.take 1])

/-- `_generate_larger_groups` (lines 461-631). -/
def generateLargerGroups (ctx : Ctx) (R : Rand) (pref : String) : List Group :=
  let rem0 := R.shuffleIds 0
    (sSort (fun a b => decide (studentConstraints ctx b ≤ studentConstraints ctx a))
      ctx.ids)
  let p1 := phase1 ctx R pref (groupTargets ctx.ids.length).2 1 rem0 []
  let p2 := phase2 ctx R pref (p1.2.1.length + 1) p1.2.2 p1.2.1 p1.1
  let p3 := phase3 ctx R pref (p2.2.1.length + 1) p2.2.2 p2.2.1 p2.1
  R.shuffleGroups p3.2 p3.1

/-- `generate_pairings` (lines 407-459). -/
def generatePairings (ctx : Ctx) (R : Rand) (pref : String)
    (useLargerGroups : Bool) : List Group :=
  if ctx.students.length ≤ 1 then ctx.students.map (fun s => [s.id])
  else if ctx.students.length = 2 then
    [[(ctx.students.getD 0 defaultStudent).id, (ctx.students.getD 1 defaultStudent).id]]
  else if useLargerGroups then generateLargerGroups ctx R pref
  else
    let pairs :=
      if ctx.ids.length % 2 = 1 then
        match findBestTriplet ctx ctx.ids with
        | some t =>
          buildPairsIncrementally ctx (ctx.ids.filter (fun sid => !(decide (sid ∈ t)))) pref ++ [t]
        | none => buildPairsIncrementally ctx ctx.ids pref
      else buildPairsIncrementally ctx ctx.ids pref
    R.shuffleGroups 0
      (optimizeTrackPreferences ctx (eliminateSingletonsNormalMode ctx pairs) pref)

/-- Increment `times_in_group_of_three` of the dictionary entry for `sid`
(`self.student_lookup[sid]` is the last student record with that id, and the
increment mutates that record in place). -/
def updFirstG3 : List Student → SId → List Student
  | [], _ => []
  | s :: rest, sid =>
    if s.id == sid then
      ⟨s.id, s.name, s.track, s.times_in_group_of_three + 1, s.times_in_group_of_four⟩ :: rest
    else s :: updFirstG3 rest sid

def bumpG3 (students : List Student) (sid : SId) : List Student :=
  (updFirstG3 students.reverse sid).reverse

/-- `update_group_of_three_counts` (lines 709-717): only groups of exactly 3
touch any counter. -/
def updateGroupOfThreeCounts (students : List Student) (pairings : List Group) :
    List Student :=
  pairings.foldl
    (fun sts g => if g.length = 3 then g.foldl bumpG3 sts else sts) students

/-- `update_group_counts` (lines 740-742), an alias. -/
def updateGroupCounts (students : List Student) (pairings : List Group) :
    List Student :=
  updateGroupOfThreeCounts students pairings

/-- Index (0-based, newest first) of the first session containing a pair key;
the specification-side description of what `recent_pairs` records. -/
def firstOcc : List Session → PK → Option Nat
  | [], _ => none
  | s :: rest, k =>
    if k ∈ sessionPairKeys s then some 0 else (firstOcc rest k).map (fun n => n + 1)

/-- Specification-side count: in how many size-3 groups does `sid` occur
(with multiplicity of occurrences inside a group). -/
def countG3 (pairings : List Group) (sid : SId) : Nat :=
  (pairings.map (fun g => if g.length = 3 then g.count sid else 0)).sum

/-- Add `n` to a student's group-of-three counter. -/
def bumpBy (n : Nat) (s : Student) : Student :=
  ⟨s.id, s.name, s.track, s.times_in_group_of_three + n, s.times_in_group_of_four⟩

/-- Concrete student records used in witnesses and counterexamples. -/
def pstu (i t : String) (g3 : Nat) : Student := ⟨i, i, t, g3, 0⟩

/-! ## Properties of the recency penalty -/

lemma recencyPenalty_one : recencyPenalty 1 = 100 := by norm_num [recencyPenalty]

lemma recencyPenalty_two : recencyPenalty 2 = 50 := by norm_num [recencyPenalty]

lemma recencyPenalty_mid {r : Nat} (h3 : 3 ≤ r) (h5 : r < 5) :
    recencyPenalty r = 25 := by
  unfold recencyPenalty
  rw [if_neg (by omega), if_neg (by omega), if_pos h5]

lemma recencyPenalty_decay {r : Nat} (h : 5 ≤ r) :
    recencyPenalty r = 10 * (9 / 10 : ℚ) ^ (r - 5) := by
  unfold recencyPenalty
  rw [if_neg (by omega), if_neg (by omega), if_neg (by omega)]

lemma recencyPenalty_decay_le {r : Nat} (h : 5 ≤ r) : recencyPenalty r ≤ 10 := by
  rw [recencyPenalty_decay h]
  have h1 : ((9 : ℚ) / 10) ^ (r - 5) ≤ 1 := pow_le_one₀ (by norm_num) (by norm_num)
  nlinarith

lemma recencyPenalty_decay_pos {r : Nat} (h : 5 ≤ r) : 0 < recencyPenalty r := by
  rw [recencyPenalty_decay h]
  positivity

lemma recencyPenalty_le_25 {r : Nat} (h : 3 ≤ r) : recencyPenalty r ≤ 25 := by
  by_cases h5 : 5 ≤ r
  · linarith [recencyPenalty_decay_le h5]
  · rw [recencyPenalty_mid h (by omega)]

lemma recencyPenalty_le_50 {r : Nat} (h : 2 ≤ r) : recencyPenalty r ≤ 50 := by
  by_cases h2 : r = 2
  · rw [h2, recencyPenalty_two]
  · linarith [recencyPenalty_le_25 (show 3 ≤ r by omega)]

lemma recencyPenalty_anti {r1 r2 : Nat} (h1 : 1 ≤ r1) (h : r1 < r2) :
    recencyPenalty r2 ≤ recencyPenalty r1 := by
  by_cases h5 : 5 ≤ r1
  · rw [recencyPenalty_decay h5, recencyPenalty_decay (by omega : 5 ≤ r2)]
    have := pow_le_pow_of_le_one (a := (9 : ℚ) / 10) (by norm_num) (by norm_num)
      (show r1 - 5 ≤ r2 - 5 by omega)
    nlinarith
  · interval_cases r1
    · rw [recencyPenalty_one]; linarith [recencyPenalty_le_50 (show 2 ≤ r2 by omega)]
    · rw [recencyPenalty_two]; linarith [recencyPenalty_le_25 (show 3 ≤ r2 by omega)]
    · rw [show recencyPenalty 3 = 25 from recencyPenalty_mid (by norm_num) (by norm_num)]
      exact recencyPenalty_le_25 (by omega)
    · rw [show recencyPenalty 4 = 25 from recencyPenalty_mid (by norm_num) (by norm_num)]
      exact recencyPenalty_le_25 (by omega)

lemma recencyPenalty_strictAnti {r1 r2 : Nat} (h1 : 1 ≤ r1) (h : r1 < r2)
    (hex : ¬(r1 = 3 ∧ r2 = 4)) : recencyPenalty r2 < recencyPenalty r1 := by
  by_cases h5 : 5 ≤ r1
  · rw [recencyPenalty_decay h5, recencyPenalty_decay (by omega : 5 ≤ r2)]
    have := pow_lt_pow_right_of_lt_one₀ (a := (9 : ℚ) / 10) (by norm_num) (by norm_num)
      (show r1 - 5 < r2 - 5 by omega)
    nlinarith
  · interval_cases r1
    · rw [recencyPenalty_one]; linarith [recencyPenalty_le_50 (show 2 ≤ r2 by omega)]
    · rw [recencyPenalty_two]; linarith [recencyPenalty_le_25 (show 3 ≤ r2 by omega)]
    · have hne : r2 ≠ 4 := fun hc => hex ⟨rfl, hc⟩
      rw [show recencyPenalty 3 = 25 from recencyPenalty_mid (by norm_num) (by norm_num)]
      linarith [recencyPenalty_decay_le (show 5 ≤ r2 by omega)]
    · rw [show recencyPenalty 4 = 25 from recencyPenalty_mid (by norm_num) (by norm_num)]
      linarith [recencyPenalty_decay_le (show 5 ≤ r2 by omega)]

/-! ## Properties of the counter updater -/

lemma bumpBy_zero (s : Student) : bumpBy 0 s = s := by
  cases s; simp [bumpBy]

lemma bumpBy_bumpBy (m n : Nat) (s : Student) :
    bumpBy n (bumpBy m s) = bumpBy (m + n) s := by
  cases s; simp [bumpBy, Nat.add_assoc]

lemma bumpBy_id (n : Nat) (s : Student) : (bumpBy n s).id = s.id := rfl

lemma map_bumpBy_zero (l : List Student) : l.map (fun s => bumpBy 0 s) = l := by
  rw [List.map_congr_left (fun s _ => bumpBy_zero s)]
  simp

lemma updFirstG3_eq_map (l : List Student) (sid : SId)
    (h : (l.map (fun s => s.id)).Nodup) :
    updFirstG3 l sid = l.map (fun s => if s.id = sid then bumpBy 1 s else s) := by
  induction l with
  | nil => rfl
  | cons s rest ih =>
    simp only [List.map_cons, List.nodup_cons] at h
    by_cases hs : s.id = sid
    · have hrest : rest.map (fun s => if s.id = sid then bumpBy 1 s else s) = rest := by
        have : ∀ x ∈ rest, (if x.id = sid then bumpBy 1 x else x) = x := by
          intro x hx
          rw [if_neg]
          intro hc
          exact h.1 (by rw [hs, ← hc]; exact List.mem_map_of_mem _ hx)
        rw [List.map_congr_left this]
        simp
      simp only [updFirstG3, beq_iff_eq, if_pos hs, List.map_cons, if_pos hs, hrest]
      rfl
    · simp only [updFirstG3, beq_iff_eq, if_neg hs, List.map_cons, if_neg hs,
        ih h.2]

lemma bumpG3_eq_map (l : List Student) (sid : SId)
    (h : (l.map (fun s => s.id)).Nodup) :
    bumpG3 l sid = l.map (fun s => if s.id = sid then bumpBy 1 s else s) := by
  unfold bumpG3
  rw [updFirstG3_eq_map _ _ (by rw [List.map_reverse]; exact List.nodup_reverse.mpr h),
    List.map_reverse, List.reverse_reverse]

lemma ids_map_bump (l : List Student) (f : Student → Nat) :
    ((l.map (fun s => bumpBy (f s) s)).map (fun s => s.id)) =
      l.map (fun s => s.id) := by
  rw [List.map_map]; rfl

lemma foldl_bumpG3 (g : List SId) (l : List Student)
    (h : (l.map (fun s => s.id)).Nodup) :
    g.foldl bumpG3 l = l.map (fun s => bumpBy (g.count s.id) s) := by
  induction g generalizing l with
  | nil =>
    simp only [List.foldl_nil, List.count_nil]
    exact (map_bumpBy_zero l).symm
  | cons a g' ih =>
    simp only [List.foldl_cons]
    rw [bumpG3_eq_map l a h]
    have h2 : ((l.map (fun s => if s.id = a then bumpBy 1 s else s)).map
        (fun s => s.id)).Nodup := by
      rw [List.map_map]
      have : ((fun s => s.id) ∘ fun s => if s.id = a then bumpBy 1 s else s) =
          fun s => s.id := by
        funext s
        by_cases hs : s.id = a <;> simp [hs, bumpBy_id]
      rw [this]; exact h
    rw [ih _ h2, List.map_map]
    apply List.map_congr_left
    intro s _
    by_cases hs : s.id = a
    · simp only [Function.comp, if_pos hs, bumpBy_id, bumpBy_bumpBy]
      have : (a :: g').count s.id = g'.count s.id + 1 := by
        rw [List.count_cons, if_pos (by simp [hs])]
      rw [this, Nat.add_comm 1 (g'.count s.id)]
    · simp only [Function.comp, if_neg hs, bumpBy_id]
      have hcnt : (a :: g').count s.id = g'.count s.id := by
        rw [List.count_cons,
          if_neg (by simp only [beq_iff_eq]; exact fun hc => hs hc.symm),
          Nat.add_zero]
      rw [hcnt]

/-- CLAIM C4 (amended): `update_group_counts` adds 1 to a member's
`times_in_group_of_three` for every size-3 group containing the member and
leaves everything else — in particular every `times_in_group_of_four` —
unchanged; groups of size 2 and of size 4 touch no counter at all. -/
theorem claim_C4_amended (students : List Student) (pairings : List Group)
    (h : (students.map (fun s => s.id)).Nodup) :
    updateGroupCounts students pairings =
      students.map (fun s => bumpBy (countG3 pairings s.id) s) := by
  unfold updateGroupCounts updateGroupOfThreeCounts
  induction pairings generalizing students with
  | nil =>
    simp only [List.foldl_nil, countG3, List.map_nil, List.sum_nil]
    exact (map_bumpBy_zero students).symm
  | cons g rest ih =>
    simp only [List.foldl_cons]
    by_cases hg : g.length = 3
    · rw [if_pos hg, foldl_bumpG3 g students h,
        ih _ (by rw [ids_map_bump]; exact h), List.map_map]
      apply List.map_congr_left
      intro s _
      simp only [Function.comp, bumpBy_id, bumpBy_bumpBy, countG3, List.map_cons,
        List.sum_cons, if_pos hg]
    · rw [if_neg hg, ih _ h]
      apply List.map_congr_left
      intro s _
      simp only [countG3, List.map_cons, List.sum_cons, if_neg hg, Nat.zero_add]

/-- Witness for C4 (amended): a concrete run, with one size-3 group and one
size-2 group. -/
theorem claim_C4_amended_witness :
    updateGroupCounts [pstu "a" "T" 0, pstu "b" "T" 4, pstu "c" "T" 0]
        [["a", "b", "c"], ["a", "b"]] =
      [pstu "a" "T" 0, pstu "b" "T" 4, pstu "c" "T" 0].map
        (fun s => bumpBy (countG3 [["a", "b", "c"], ["a", "b"]] s.id) s) :=
  claim_C4_amended _ _ (by decide)

/-- CLAIM C4 (counterexample): on a size-4 group the Counter Updater changes
nothing at all — no member's `times_in_group_of_four` is incremented, contrary
to the claim that it increases by 1 for every size-4 group containing the
member. -/
theorem claim_C4_counterexample :
    updateGroupCounts (["a", "b", "c", "d"].map (fun i => pstu i "T" 0))
        [["a", "b", "c", "d"]] =
      ["a", "b", "c", "d"].map (fun i => pstu i "T" 0) ∧
    ¬ ((updateGroupCounts (["a", "b", "c", "d"].map (fun i => pstu i "T" 0))
        [["a", "b", "c", "d"]]).map (fun s => s.times_in_group_of_four) =
        [1, 1, 1, 1]) := by
  constructor
  · rfl
  · decide

/-! ## C5: the recency penalty of the Compatibility Scorer -/

/-- CLAIM C5 (counterexample): the recency penalty is NOT strictly decreasing
in the recency: recencies 3 and 4 are both penalised 25. -/
theorem claim_C5_counterexample :
    recencyPenalty 3 = 25 ∧ recencyPenalty 4 = 25 ∧
      ¬ recencyPenalty 4 < recencyPenalty 3 := by
  refine ⟨by norm_num [recencyPenalty], by norm_num [recencyPenalty], ?_⟩
  norm_num [recencyPenalty]

/-- CLAIM C5 (amended): the recency penalty is weakly decreasing in the
recency, strictly except between r = 3 and r = 4 (both 25); the penalty at
r = 1 is at least twice the penalty at any r ≥ 5; in particular
penalty(20) < penalty(5) < penalty(1); and for a non-forbidden pair with
recorded recency r the Scorer's value is exactly this penalty plus the
group-of-three balance term, so the same ordering holds for the Scorer with
all other inputs held equal. -/
theorem claim_C5_amended :
    (∀ r1 r2 : Nat, 1 ≤ r1 → r1 < r2 → recencyPenalty r2 ≤ recencyPenalty r1) ∧
    (∀ r1 r2 : Nat, 1 ≤ r1 → r1 < r2 → ¬(r1 = 3 ∧ r2 = 4) →
      recencyPenalty r2 < recencyPenalty r1) ∧
    (∀ r : Nat, 5 ≤ r → 2 * recencyPenalty r ≤ recencyPenalty 1) ∧
    (recencyPenalty 20 < recencyPenalty 5 ∧ recencyPenalty 5 < recencyPenalty 1) ∧
    (∀ r : Nat, (recencyPenaltyD r).val = recencyPenalty r) ∧
    (∀ (ctx : Ctx) (a b : SId) (r : Nat), mkPK a b ∉ ctx.forbidden →
      alook ctx.recent (mkPK a b) = some r →
      calcPairScore ctx a b =
        Score.fin (DecQ.add (recencyPenaltyD r)
          ⟨(g3diff ctx.students a b : Int) * 2, 0⟩)) := by
  refine ⟨fun r1 r2 h1 h => recencyPenalty_anti h1 h,
    fun r1 r2 h1 h hex => recencyPenalty_strictAnti h1 h hex,
    fun r h => ?_, ⟨?_, ?_⟩, fun r => ?_, fun ctx a b r hf hr => ?_⟩
  · rw [recencyPenalty_one]
    linarith [recencyPenalty_decay_le h]
  · exact recencyPenalty_strictAnti (by norm_num) (by norm_num) (by omega)
  · exact recencyPenalty_strictAnti (by norm_num) (by norm_num) (by omega)
  · unfold recencyPenalty recencyPenaltyD DecQ.val
    split_ifs <;> norm_num
    rw [div_pow]
    ring
  · unfold calcPairScore
    rw [if_neg hf, hr]

/-- Witness for C5 (amended): concrete instances of every hypothesis-carrying
clause. -/
theorem claim_C5_amended_witness :
    recencyPenalty 7 ≤ recencyPenalty 2 ∧
    recencyPenalty 6 < recencyPenalty 5 ∧
    2 * recencyPenalty 5 ≤ recencyPenalty 1 ∧
    calcPairScore ⟨[pstu "a" "T" 0, pstu "b" "T" 3], [[["a", "b"]], [["c", "d"]]]⟩
        "a" "b" =
      Score.fin (DecQ.add (recencyPenaltyD 1)
        ⟨(g3diff [pstu "a" "T" 0, pstu "b" "T" 3] "a" "b" : Int) * 2, 0⟩) :=
  ⟨claim_C5_amended.1 2 7 (by norm_num) (by norm_num),
   claim_C5_amended.2.1 5 6 (by norm_num) (by norm_num) (by omega),
   claim_C5_amended.2.2.1 5 (by norm_num),
   claim_C5_amended.2.2.2.2.2 _ "a" "b" 1 (by decide) (by decide)⟩

/-! ## C6: the History Indexer -/

lemma firstOcc_cons (s : Session) (rest : List Session) (k : PK) :
    firstOcc (s :: rest) k =
      if k ∈ sessionPairKeys s then some 0
      else (firstOcc rest k).map (fun n => n + 1) := rfl

lemma alook_foldl_add (ks : List PK) (idx : Nat) :
    ∀ (st : List (PK × Nat) × Finset PK) (k : PK),
      alook ((ks.foldl (addPairKey idx) st).1) k =
        (alook st.1 k).or (if k ∈ ks then some idx else none) := by
  induction ks with
  | nil =>
    intro st k
    cases h : alook st.1 k <;> simp [h]
  | cons k0 ks' ih =>
    intro st k
    simp only [List.foldl_cons]
    by_cases h0 : (alook st.1 k0).isSome
    · rw [show addPairKey idx st k0 = st from by unfold addPairKey; rw [if_pos h0], ih]
      by_cases hk : k = k0
      · subst hk
        rcases Option.isSome_iff_exists.mp h0 with ⟨v, hv⟩
        simp [hv]
      · cases h : alook st.1 k with
        | some v => simp
        | none => simp [List.mem_cons, hk]
    · rw [show addPairKey idx st k0 =
          ((k0, idx) :: st.1, if idx = 0 then insert k0 st.2 else st.2) from by
            unfold addPairKey; rw [if_neg h0], ih]
      by_cases hk : k0 = k
      · have hnone : alook st.1 k = none := by
          rw [← hk]
          cases h2 : alook st.1 k0 with
          | none => rfl
          | some v => rw [h2] at h0; simp at h0
        simp only [alook, if_pos hk, hnone]
        simp [← hk]
      · have hk' : ¬ k = k0 := fun h => hk h.symm
        simp only [alook, if_neg hk]
        cases h : alook st.1 k with
        | some v => simp
        | none => simp [List.mem_cons, hk']

lemma indexGo_fst_lookup :
    ∀ (l : List Session) (idx : Nat) (st : List (PK × Nat) × Finset PK) (k : PK),
      alook ((indexGo l idx st).1) k =
        (alook st.1 k).or ((firstOcc l k).map (fun n => n + idx)) := by
  intro l
  induction l with
  | nil =>
    intro idx st k
    cases h : alook st.1 k <;> simp [indexGo, firstOcc, h]
  | cons s rest ih =>
    intro idx st k
    simp only [indexGo]
    rw [ih, addSessionKeys, alook_foldl_add, firstOcc_cons]
    by_cases hs : k ∈ sessionPairKeys s
    · rw [if_pos hs, if_pos hs]
      cases h : alook st.1 k <;> simp
    · rw [if_neg hs, if_neg hs]
      cases h : alook st.1 k with
      | some v => simp
      | none =>
        simp only [Option.none_or]
        cases h2 : firstOcc rest k <;> simp [h2, Nat.add_assoc, Nat.add_comm 1 idx]

lemma foldl_add_snd_ne0 (ks : List PK) (idx : Nat) (h : idx ≠ 0) :
    ∀ st : List (PK × Nat) × Finset PK, (ks.foldl (addPairKey idx) st).2 = st.2 := by
  induction ks with
  | nil => intro st; rfl
  | cons k0 ks' ih =>
    intro st
    simp only [List.foldl_cons]
    rw [ih]
    unfold addPairKey
    by_cases h0 : (alook st.1 k0).isSome
    · rw [if_pos h0]
    · rw [if_neg h0]
      simp [h]

lemma indexGo_snd_ge1 :
    ∀ (l : List Session) (idx : Nat), 1 ≤ idx →
      ∀ st : List (PK × Nat) × Finset PK, (indexGo l idx st).2 = st.2 := by
  intro l
  induction l with
  | nil => intro idx _ st; rfl
  | cons s rest ih =>
    intro idx hidx st
    simp only [indexGo]
    rw [ih _ (by omega), addSessionKeys, foldl_add_snd_ne0 _ _ (by omega)]

lemma foldl_add_snd_0 (ks : List PK) :
    ∀ (st : List (PK × Nat) × Finset PK) (k : PK),
      k ∈ (ks.foldl (addPairKey 0) st).2 ↔
        k ∈ st.2 ∨ (alook st.1 k = none ∧ k ∈ ks) := by
  induction ks with
  | nil => intro st k; simp
  | cons k0 ks' ih =>
    intro st k
    simp only [List.foldl_cons]
    by_cases h0 : (alook st.1 k0).isSome
    · rw [show addPairKey 0 st k0 = st from by unfold addPairKey; rw [if_pos h0], ih]
      constructor
      · rintro (h | ⟨h1, h2⟩)
        · exact Or.inl h
        · exact Or.inr ⟨h1, List.mem_cons_of_mem _ h2⟩
      · rintro (h | ⟨h1, h2⟩)
        · exact Or.inl h
        · rcases List.mem_cons.mp h2 with h2 | h2
          · subst h2; rw [h1] at h0; simp at h0
          · exact Or.inr ⟨h1, h2⟩
    · rw [show addPairKey 0 st k0 = ((k0, 0) :: st.1, insert k0 st.2) from by
        unfold addPairKey; rw [if_neg h0]; simp, ih]
      have h0n : alook st.1 k0 = none := by
        cases h : alook st.1 k0 <;> simp [h] at h0 ⊢
      simp only [Finset.mem_insert, alook]
      by_cases hk : k0 = k
      · subst hk
        simp [h0n, List.mem_cons]
      · constructor
        · rintro ((h | h) | ⟨h1, h2⟩)
          · exact absurd h.symm hk
          · exact Or.inl h
          · rw [if_neg hk] at h1
            exact Or.inr ⟨h1, List.mem_cons_of_mem _ h2⟩
        · rintro (h | ⟨h1, h2⟩)
          · exact Or.inl (Or.inr h)
          · rcases List.mem_cons.mp h2 with h2 | h2
            · exact absurd h2.symm hk
            · exact Or.inr ⟨by rw [if_neg hk]; exact h1, h2⟩

lemma indexGo_forbidden (l : List Session) (k : PK) :
    k ∈ (indexGo l 0 ([], ∅)).2 ↔ firstOcc l k = some 0 := by
  cases l with
  | nil => simp [indexGo, firstOcc]
  | cons s rest =>
    simp only [indexGo]
    rw [indexGo_snd_ge1 _ _ (by omega), addSessionKeys, foldl_add_snd_0, firstOcc_cons]
    by_cases hs : k ∈ sessionPairKeys s
    · rw [if_pos hs]
      simp [alook, hs]
    · rw [if_neg hs]
      cases h : firstOcc rest k <;> simp [h, hs]

lemma firstOcc_eq_some_iff (l : List Session) (k : PK) :
    ∀ i : Nat, firstOcc l k = some i ↔
      i < l.length ∧ k ∈ sessionPairKeys (l.getD i []) ∧
        ∀ j < i, ¬ k ∈ sessionPairKeys (l.getD j []) := by
  induction l with
  | nil => intro i; simp [firstOcc]
  | cons s rest ih =>
    intro i
    rw [firstOcc_cons]
    by_cases hs : k ∈ sessionPairKeys s
    · rw [if_pos hs]
      constructor
      · intro h
        have hi : i = 0 := by
          have := Option.some.inj h
          omega
        subst hi
        exact ⟨by simp, by simpa using hs, by omega⟩
      · rintro ⟨h1, h2, h3⟩
        cases i with
        | zero => rfl
        | succ n => exact absurd hs (by simpa using h3 0 (Nat.succ_pos n))
    · rw [if_neg hs]
      cases i with
      | zero =>
        constructor
        · intro h
          rcases Option.map_eq_some'.mp h with ⟨n, _, hn⟩
          omega
        · rintro ⟨h1, h2, h3⟩
          exact absurd (by simpa using h2) hs
      | succ n =>
        constructor
        · intro h
          rcases Option.map_eq_some'.mp h with ⟨m, hm, hmn⟩
          have hmn' : m = n := by omega
          rw [hmn'] at hm
          rcases (ih n).mp hm with ⟨h1, h2, h3⟩
          refine ⟨by simpa using h1, by simpa using h2, ?_⟩
          intro j hj
          cases j with
          | zero => simpa using hs
          | succ j' => simpa using h3 j' (by omega)
        · rintro ⟨h1, h2, h3⟩
          have : firstOcc rest k = some n := by
            rw [ih n]
            refine ⟨by simpa using h1, by simpa using h2, ?_⟩
            intro j hj
            simpa using h3 (j + 1) (by omega)
          rw [this]
          rfl

/-- CLAIM C6: the Recency Index maps a pair key to the index (0 = most recent
prior session) of the most recent session containing it and to nothing else;
the Forbidden-Pair set is exactly the keys of recency 0; and an empty history
produces an empty index and an empty forbidden set. -/
theorem claim_C6_indexer (sessions : List Session) (k : PK) (i : Nat) :
    (alook (recentPairs sessions) k = some i ↔
      i < sessions.length ∧ k ∈ sessionPairKeys (sessions.reverse.getD i []) ∧
        ∀ j < i, ¬ k ∈ sessionPairKeys (sessions.reverse.getD j [])) ∧
    (k ∈ forbiddenPairs sessions ↔ alook (recentPairs sessions) k = some 0) ∧
    recentPairs [] = [] ∧ forbiddenPairs [] = (∅ : Finset PK) := by
  have hlk : alook (recentPairs sessions) k = firstOcc sessions.reverse k := by
    unfold recentPairs
    rw [indexGo_fst_lookup]
    cases h : firstOcc sessions.reverse k <;> simp [alook]
  refine ⟨?_, ?_, rfl, rfl⟩
  · rw [hlk, firstOcc_eq_some_iff]
    rw [List.length_reverse]
  · unfold forbiddenPairs
    rw [hlk, indexGo_forbidden]

/-! ## The argmin fold -/

lemma bestBy_aux {α : Type} (v : α → Bool) (s : α → Score) (a : α) :
    ∀ (l : List α) (init : Option α × Score),
      ((l.foldl
        (fun b c => if v c then (if Score.slt (s c) b.2 then (some c, s c) else b) else b)
        init).1 = some a) →
      init.1 = some a ∨ (a ∈ l ∧ v a = true) := by
  intro l
  induction l with
  | nil => intro init h; exact Or.inl h
  | cons c l' ih =>
    intro init h
    rcases ih _ h with h2 | h2
    · dsimp only [] at h2
      by_cases hv : v c
      · rw [if_pos hv] at h2
        by_cases hlt : Score.slt (s c) init.2
        · rw [if_pos hlt] at h2
          have hca : c = a := Option.some.inj h2
          subst hca
          exact Or.inr ⟨List.mem_cons_self _ _, hv⟩
        · rw [if_neg hlt] at h2
          exact Or.inl h2
      · rw [if_neg hv] at h2
        exact Or.inl h2
    · exact Or.inr ⟨List.mem_cons_of_mem _ h2.1, h2.2⟩

lemma bestBy_mem {α : Type} {v : α → Bool} {s : α → Score} {l : List α} {a : α}
    (h : (bestBy v s l).1 = some a) : a ∈ l ∧ v a = true := by
  rcases bestBy_aux v s a l (none, Score.inf) h with h2 | h2
  · simp at h2
  · exact h2

lemma bestBy_step_keeps {α : Type} (v : α → Bool) (s : α → Score) :
    ∀ (l : List α) (init : Option α × Score), init.1.isSome →
      ((l.foldl
        (fun b c => if v c then (if Score.slt (s c) b.2 then (some c, s c) else b) else b)
        init).1).isSome := by
  intro l
  induction l with
  | nil => intro init h; exact h
  | cons c l' ih =>
    intro init h
    rw [List.foldl_cons]
    apply ih
    try dsimp only []
    by_cases hv : v c
    · rw [if_pos hv]
      by_cases hlt : Score.slt (s c) init.2
      · rw [if_pos hlt]; rfl
      · rw [if_neg hlt]; exact h
    · rw [if_neg hv]; exact h

lemma bestBy_isSome_aux {α : Type} (v : α → Bool) (s : α → Score) (a : α)
    (hv : v a = true) (hs : Score.slt (s a) Score.inf = true) :
    ∀ (l : List α) (init : Option α × Score), a ∈ l →
      (init.2 = Score.inf ∨ init.1.isSome) →
      ((l.foldl
        (fun b c => if v c then (if Score.slt (s c) b.2 then (some c, s c) else b) else b)
        init).1).isSome := by
  intro l
  induction l with
  | nil => intro init h; simp at h
  | cons c l' ih =>
    intro init hmem hinv
    rcases List.mem_cons.mp hmem with hac | hal
    · subst hac
      rw [List.foldl_cons]
      try dsimp only []
      rw [if_pos hv]
      by_cases hlt : Score.slt (s a) init.2
      · rw [if_pos hlt]
        exact bestBy_step_keeps v s l' _ rfl
      · rcases hinv with htop | hsome
        · exact absurd (htop ▸ hs) hlt
        · rw [if_neg hlt]
          exact bestBy_step_keeps v s l' _ hsome
    · rw [List.foldl_cons]
      apply ih _ hal
      try dsimp only []
      by_cases hvc : v c
      · rw [if_pos hvc]
        by_cases hlt : Score.slt (s c) init.2
        · rw [if_pos hlt]; exact Or.inr rfl
        · rw [if_neg hlt]; exact hinv
      · rw [if_neg hvc]; exact hinv

lemma bestBy_isSome {α : Type} {v : α → Bool} {s : α → Score} {l : List α} {a : α}
    (hmem : a ∈ l) (hv : v a = true) (hs : Score.slt (s a) Score.inf = true) :
    ((bestBy v s l).1).isSome :=
  bestBy_isSome_aux v s a hv hs l (none, Score.inf) hmem (Or.inl rfl)

lemma pyTruthy_iff (o : Option SId) :
    pyTruthy o = true ↔ ∃ s, o = some s ∧ s ≠ "" := by
  cases o with
  | none => simp [pyTruthy]
  | some s => simp [pyTruthy]

/-! ## Finiteness of the scores the algorithm compares -/

lemma alook_map_eq_some {α : Type} (key : α → PK) (val : α → Score) :
    ∀ (l : List α) (k : PK) (v : Score),
      alook (l.map (fun p => (key p, val p))) k = some v →
      ∃ p ∈ l, key p = k ∧ val p = v := by
  intro l
  induction l with
  | nil => intro k v h; simp [alook] at h
  | cons p l' ih =>
    intro k v h
    simp only [List.map_cons, alook] at h
    by_cases hk : key p = k
    · rw [if_pos hk] at h
      exact ⟨p, List.mem_cons_self _ _, hk, Option.some.inj h⟩
    · rw [if_neg hk] at h
      rcases ih k v h with ⟨q, hq, hqk, hqv⟩
      exact ⟨q, List.mem_cons_of_mem _ hq, hqk, hqv⟩

lemma Score.slt_inf {x : Score} (h : x ≠ Score.inf) :
    Score.slt x Score.inf = true := by
  cases x with
  | inf => exact absurd rfl h
  | fin a => rfl

lemma Score.add_ne_inf {a b : Score} (ha : a ≠ Score.inf) (hb : b ≠ Score.inf) :
    Score.add a b ≠ Score.inf := by
  cases a with
  | inf => exact absurd rfl ha
  | fin x =>
    cases b with
    | inf => exact absurd rfl hb
    | fin y => simp [Score.add]

lemma scoreGet_ne_top {ctx : Ctx} {k : PK} (h : k ∉ ctx.forbidden) :
    scoreGet ctx k ≠ Score.inf := by
  unfold scoreGet
  cases hl : alook (pairScoresList ctx) k with
  | none => simp [sInt]
  | some v =>
    simp only [Option.getD_some]
    rcases alook_map_eq_some _ _ _ _ _ hl with ⟨p, _, hpk, hpv⟩
    rw [← hpv]
    unfold calcPairScore
    rw [if_neg (hpk ▸ h)]
    simp

lemma trackBonus_ne_top (ctx : Ctx) (a b : SId) (pref : String) :
    trackBonus ctx a b pref ≠ Score.inf := by
  unfold trackBonus
  split_ifs <;> simp [sInt]

lemma relaxedScore_ne_top (ctx : Ctx) (pref : String) (s1 s2 : SId) :
    relaxedScore ctx pref s1 s2 ≠ Score.inf := by
  unfold relaxedScore
  by_cases h : mkPK s1 s2 ∈ ctx.forbidden
  · rw [if_pos h]; simp [sInt]
  · rw [if_neg h]
    exact Score.add_ne_inf (scoreGet_ne_top h) (trackBonus_ne_top ctx s1 s2 pref)

lemma strictBest_mem {ctx : Ctx} {pref : String} {s1 p : SId} {rem : List SId}
    (h : (strictBest ctx pref s1 rem).1 = some p) :
    p ∈ rem ∧ mkPK s1 p ∉ ctx.forbidden := by
  rcases bestBy_mem h with ⟨hm, hv⟩
  refine ⟨hm, ?_⟩
  simpa using hv

lemma relaxedBest_mem {ctx : Ctx} {pref : String} {s1 p : SId} {rem : List SId}
    (h : (relaxedBest ctx pref s1 rem).1 = some p) : p ∈ rem :=
  (bestBy_mem h).1

lemma relaxedBest_isSome (ctx : Ctx) (pref : String) (s1 : SId) {rem : List SId}
    (h : rem ≠ []) : ((relaxedBest ctx pref s1 rem).1).isSome := by
  rcases List.exists_mem_of_ne_nil rem h with ⟨a, ha⟩
  exact bestBy_isSome ha rfl (Score.slt_inf (relaxedScore_ne_top ctx pref s1 a))

/-! ## Permutation groundwork -/

lemma sIns_perm {α : Type} (le : α → α → Bool) (a : α) :
    ∀ l : List α, (sIns le a l).Perm (a :: l) := by
  intro l
  induction l with
  | nil => exact List.Perm.refl _
  | cons b l' ih =>
    unfold sIns
    by_cases h : le a b
    · rw [if_pos h]
    · rw [if_neg h]
      exact (ih.cons b).trans (List.Perm.swap a b l')

lemma sSort_perm {α : Type} (le : α → α → Bool) :
    ∀ l : List α, (sSort le l).Perm l := by
  intro l
  induction l with
  | nil => exact List.Perm.refl _
  | cons a l' ih =>
    unfold sSort
    exact (sIns_perm le a (sSort le l')).trans (ih.cons a)

lemma sIns_of_true {α : Type} {le : α → α → Bool} {a : α}
    (h : ∀ b, le a b = true) (l : List α) : sIns le a l = a :: l := by
  cases l with
  | nil => rfl
  | cons b l' => unfold sIns; rw [if_pos (h b)]

lemma sSort_of_true {α : Type} {le : α → α → Bool}
    (h : ∀ a b, le a b = true) : ∀ l : List α, sSort le l = l := by
  intro l
  induction l with
  | nil => rfl
  | cons a l' ih => unfold sSort; rw [ih, sIns_of_true (h a)]

lemma flatten_set_append (ps : List Group) (t : Group) :
    ∀ i : Nat, i < ps.length →
      ((ps.set i (ps.getD i [] ++ t)).flatten).Perm (ps.flatten ++ t) := by
  induction ps with
  | nil => intro i h; simp at h
  | cons p rest ih =>
    intro i h
    cases i with
    | zero =>
      simp only [List.set_cons_zero, List.getD_cons_zero, List.flatten_cons]
      rw [List.append_assoc, List.append_assoc]
      exact List.Perm.append_left p List.perm_append_comm
    | succ i' =>
      simp only [List.set_cons_succ, List.getD_cons_succ, List.flatten_cons]
      have h' : i' < rest.length := by simpa using h
      rw [List.append_assoc]
      exact List.Perm.append_left p (ih i' h')

lemma mem_drop_range {n m j : Nat} (h : j ∈ (List.range n).drop m) :
    m ≤ j ∧ j < n := by
  rcases List.getElem_of_mem h with ⟨k, hk, hjk⟩
  rw [List.getElem_drop] at hjk
  have hlen : k < n - m := by simpa using hk
  rw [List.getElem_range] at hjk
  omega

lemma allPairs_sublist {α : Type} {x y : α} :
    ∀ {l : List α}, (x, y) ∈ allPairs l → [x, y].Sublist l := by
  intro l
  induction l with
  | nil => intro h; simp [allPairs] at h
  | cons a l' ih =>
    intro h
    rcases List.mem_append.mp h with h2 | h2
    · rcases List.mem_map.mp h2 with ⟨b, hb, hxy⟩
      have hx : x = a := congrArg Prod.fst hxy.symm
      have hy : y = b := congrArg Prod.snd hxy.symm
      subst hx; subst hy
      exact (List.singleton_sublist.mpr hb).cons₂ x
    · exact (ih h2).cons a

lemma removeAll_coe : ∀ (g rem : List SId),
    (↑(removeAll rem g) : Multiset SId) = ↑rem - ↑g := by
  intro g
  induction g with
  | nil => intro rem; simp [removeAll]
  | cons x g' ih =>
    intro rem
    show (↑(removeAll (rem.erase x) g') : Multiset SId) = ↑rem - ↑(x :: g')
    rw [ih, ← Multiset.cons_coe, Multiset.sub_cons, ← Multiset.coe_erase]

lemma removeAll_perm {g rem : List SId} (h : (↑g : Multiset SId) ≤ ↑rem) :
    (g ++ removeAll rem g).Perm rem := by
  rw [← Multiset.coe_eq_coe, ← Multiset.coe_add, removeAll_coe]
  exact add_tsub_cancel_of_le h

lemma perm4_swap02 (a b c d : SId) : [c, b, a, d].Perm [a, b, c, d] :=
  ((List.Perm.swap b c [a, d]).trans
    ((List.Perm.swap a c [d]).cons b)).trans (List.Perm.swap a b [c, d])

lemma perm4_swap03 (a b c d : SId) : [d, b, c, a].Perm [a, b, c, d] :=
  ((List.Perm.swap b d [c, a]).trans
    ((((List.Perm.swap c d [a]).trans
      ((List.Perm.swap a d []).cons c)).trans (List.Perm.swap a c [d])).cons b)).trans
    (List.Perm.swap a b [c, d])

lemma perm4_swap12 (a b c d : SId) : [a, c, b, d].Perm [a, b, c, d] :=
  (List.Perm.swap b c [d]).cons a

lemma perm4_swap13 (a b c d : SId) : [a, d, c, b].Perm [a, b, c, d] :=
  ((((List.Perm.swap c d [b]).trans
    ((List.Perm.swap b d []).cons c)).trans (List.Perm.swap b c [d])).cons a)

lemma head?_mem {α : Type} {l : List α} {x : α} (h : l.head? = some x) : x ∈ l := by
  cases l with
  | nil => simp at h
  | cons a l' =>
    simp only [List.head?_cons, Option.some.injEq] at h
    rw [← h]
    exact List.mem_cons_self _ _

lemma flatten_of_len1 : ∀ l : List Group, (∀ g ∈ l, g.length = 1) →
    l.flatten = l.map (fun g => g.headD "") := by
  intro l
  induction l with
  | nil => intro _; rfl
  | cons g l' ih =>
    intro h
    rcases List.length_eq_one.mp (h g (List.mem_cons_self _ _)) with ⟨x, hx⟩
    subst hx
    simp only [List.flatten_cons, List.map_cons, List.headD_cons]
    rw [ih (fun g hg => h g (List.mem_cons_of_mem _ hg))]
    rfl

lemma pyTruthy_getD {o : Option SId} (h : pyTruthy o = true) :
    o = some (o.getD "") := by
  rcases (pyTruthy_iff o).mp h with ⟨s, hs, _⟩
  rw [hs]
  rfl

/-! ## The main pair loop preserves the pool -/

lemma buildLoop_perm (ctx : Ctx) (pref : String) :
    ∀ (fuel : Nat) (rem : List SId) (ps : List Group),
      ((buildLoop ctx pref fuel rem ps).1.flatten ++
        (buildLoop ctx pref fuel rem ps).2.1).Perm (ps.flatten ++ rem) := by
  intro fuel
  induction fuel with
  | zero => intro rem ps; exact List.Perm.refl _
  | succ n ih =>
    intro rem ps
    unfold buildLoop
    by_cases h2 : rem.length < 2
    · rw [if_pos h2]
    · rw [if_neg h2]
      by_cases h3 : rem.length = 3
      · rw [if_pos h3]
        simp only [List.flatten_append, List.flatten_cons, List.flatten_nil,
          List.append_nil]
        exact List.Perm.refl _
      · rw [if_neg h3]
        cases rem with
        | nil => simp
        | cons s1 rest =>
          simp only
          by_cases hbp : pyTruthy (strictBest ctx pref s1 rest).1
          · rw [if_pos hbp]
            have hpmem : (strictBest ctx pref s1 rest).1.getD "" ∈ rest :=
              (strictBest_mem (pyTruthy_getD hbp)).1
            refine (ih _ _).trans ?_
            rw [List.flatten_append, List.flatten_cons, List.flatten_nil,
              List.append_nil, List.append_assoc]
            refine List.Perm.append_left _ ?_
            show ([s1, _] ++ _).Perm _
            rw [List.cons_append, List.singleton_append]
            exact ((List.perm_cons_erase hpmem).symm.cons s1)
          · rw [if_neg hbp]
            by_cases hrp : pyTruthy (relaxedBest ctx pref s1 rest).1
            · rw [if_pos hrp]
              have hpmem : (relaxedBest ctx pref s1 rest).1.getD "" ∈ rest :=
                relaxedBest_mem (pyTruthy_getD hrp)
              refine (ih _ _).trans ?_
              rw [List.flatten_append, List.flatten_cons, List.flatten_nil,
                List.append_nil, List.append_assoc]
              refine List.Perm.append_left _ ?_
              show ([s1, _] ++ _).Perm _
              rw [List.cons_append, List.singleton_append]
              exact ((List.perm_cons_erase hpmem).symm.cons s1)
            · rw [if_neg hrp]
              refine List.Perm.append_left _ ?_
              exact List.perm_append_comm.trans (List.Perm.refl _)

lemma buildLoop_out (ctx : Ctx) (pref : String) :
    ∀ (fuel : Nat) (rem : List SId) (ps : List Group) (g : Group),
      g ∈ (buildLoop ctx pref fuel rem ps).1 →
      g ∈ ps ∨ g.length = 2 ∨ g.length = 3 := by
  intro fuel
  induction fuel with
  | zero => intro rem ps g hg; exact Or.inl hg
  | succ n ih =>
    intro rem ps g hg
    unfold buildLoop at hg
    by_cases h2 : rem.length < 2
    · rw [if_pos h2] at hg; exact Or.inl hg
    · rw [if_neg h2] at hg
      by_cases h3 : rem.length = 3
      · rw [if_pos h3] at hg
        rcases List.mem_append.mp hg with h4 | h4
        · exact Or.inl h4
        · right; right
          simp only [List.mem_singleton] at h4
          rw [h4]; exact h3
      · rw [if_neg h3] at hg
        cases rem with
        | nil => exact Or.inl hg
        | cons s1 rest =>
          simp only at hg
          by_cases hbp : pyTruthy (strictBest ctx pref s1 rest).1
          · rw [if_pos hbp] at hg
            rcases ih _ _ _ hg with h4 | h4
            · rcases List.mem_append.mp h4 with h5 | h5
              · exact Or.inl h5
              · right; left
                simp only [List.mem_singleton] at h5
                rw [h5]; rfl
            · exact Or.inr h4
          · rw [if_neg hbp] at hg
            by_cases hrp : pyTruthy (relaxedBest ctx pref s1 rest).1
            · rw [if_pos hrp] at hg
              rcases ih _ _ _ hg with h4 | h4
              · rcases List.mem_append.mp h4 with h5 | h5
                · exact Or.inl h5
                · right; left
                  simp only [List.mem_singleton] at h5
                  rw [h5]; rfl
              · exact Or.inr h4
            · rw [if_neg hrp] at hg
              exact Or.inl hg

lemma buildLoop_leftover (ctx : Ctx) (pref : String) :
    ∀ (fuel : Nat) (rem : List SId) (ps : List Group), rem.length ≤ fuel →
      (buildLoop ctx pref fuel rem ps).2.1 = [] ∨
      (2 ≤ (buildLoop ctx pref fuel rem ps).2.1.length ∧
        (buildLoop ctx pref fuel rem ps).2.1.length % 2 = rem.length % 2) ∨
      ((buildLoop ctx pref fuel rem ps).2.1 = rem ∧ rem.length ≤ 1) := by
  intro fuel
  induction fuel with
  | zero =>
    intro rem ps hlen
    left
    show rem = []
    exact List.length_eq_zero.mp (by omega)
  | succ n ih =>
    intro rem ps hlen
    unfold buildLoop
    by_cases h2 : rem.length < 2
    · rw [if_pos h2]
      right; right
      exact ⟨rfl, by omega⟩
    · rw [if_neg h2]
      by_cases h3 : rem.length = 3
      · rw [if_pos h3]
        left; rfl
      · rw [if_neg h3]
        cases rem with
        | nil => left; rfl
        | cons s1 rest =>
          simp only [List.length_cons] at hlen h2 h3
          simp only
          by_cases hbp : pyTruthy (strictBest ctx pref s1 rest).1
          · rw [if_pos hbp]
            have hpmem : (strictBest ctx pref s1 rest).1.getD "" ∈ rest :=
              (strictBest_mem (pyTruthy_getD hbp)).1
            have herase : (rest.erase ((strictBest ctx pref s1 rest).1.getD "")).length =
                rest.length - 1 := List.length_erase_of_mem hpmem
            have hrl : 1 ≤ rest.length := List.length_pos.mpr
              (fun hc => by rw [hc] at hpmem; simp at hpmem)
            rcases ih (rest.erase ((strictBest ctx pref s1 rest).1.getD ""))
                (ps ++ [[s1, (strictBest ctx pref s1 rest).1.getD ""]])
                (by rw [herase]; omega) with h4 | h4 | h4
            · exact Or.inl h4
            · right; left
              refine ⟨h4.1, ?_⟩
              rw [h4.2, herase]
              simp only [List.length_cons]
              omega
            · left
              rw [h4.1]
              have h42 : rest.length - 1 ≤ 1 := herase ▸ h4.2
              have hzero : (rest.erase ((strictBest ctx pref s1 rest).1.getD "")).length = 0 := by
                rw [herase]
                omega
              exact List.length_eq_zero.mp hzero
          · rw [if_neg hbp]
            by_cases hrp : pyTruthy (relaxedBest ctx pref s1 rest).1
            · rw [if_pos hrp]
              have hpmem : (relaxedBest ctx pref s1 rest).1.getD "" ∈ rest :=
                relaxedBest_mem (pyTruthy_getD hrp)
              have herase : (rest.erase ((relaxedBest ctx pref s1 rest).1.getD "")).length =
                  rest.length - 1 := List.length_erase_of_mem hpmem
              have hrl : 1 ≤ rest.length := List.length_pos.mpr
                (fun hc => by rw [hc] at hpmem; simp at hpmem)
              rcases ih (rest.erase ((relaxedBest ctx pref s1 rest).1.getD ""))
                  (ps ++ [[s1, (relaxedBest ctx pref s1 rest).1.getD ""]])
                  (by rw [herase]; omega) with h4 | h4 | h4
              · exact Or.inl h4
              · right; left
                refine ⟨h4.1, ?_⟩
                rw [h4.2, herase]
                simp only [List.length_cons]
                omega
              · left
                rw [h4.1]
                have h42 : rest.length - 1 ≤ 1 := herase ▸ h4.2
                have hzero : (rest.erase ((relaxedBest ctx pref s1 rest).1.getD "")).length = 0 := by
                  rw [herase]
                  omega
                exact List.length_eq_zero.mp hzero
            · rw [if_neg hrp]
              right; left
              constructor
              · simp only [List.length_append, List.length_cons, List.length_nil]
                omega
              · simp only [List.length_append, List.length_cons, List.length_nil]

/-! ## Structure of the pair-construction loop -/

lemma bestHostIdx_spec {ctx : Ctx} {ps : List Group} {x : SId} {i : Nat}
    (h : bestHostIdx ctx ps x = some i) :
    i < ps.length ∧ (ps.getD i []).length = 2 := by
  unfold bestHostIdx at h
  cases hb : (bestBy (fun e => e.2.length == 2) (fun e => hostScore ctx x e.2)
      ps.enum).1 with
  | none => rw [hb] at h; simp at h
  | some e =>
    rw [hb] at h
    simp only [Option.map_some'] at h
    rcases bestBy_mem hb with ⟨hmem, hv⟩
    obtain ⟨i', g⟩ := e
    rcases List.mem_enum hmem with ⟨hlt, hval⟩
    have hi : i = i' := by simpa using h.symm
    subst hi
    refine ⟨hlt, ?_⟩
    rw [List.getD_eq_getElem ps [] hlt, ← hval]
    simpa using hv

lemma smallestIdx_lt {ps : List Group} (h : ps ≠ []) : smallestIdx ps < ps.length := by
  unfold smallestIdx
  cases hb : (bestBy (fun _ => true) (fun e => sInt (e.2.length : Int)) ps.enum).1 with
  | none =>
    simp only [hb, Option.map_none', Option.getD_none]
    exact List.length_pos.mpr h
  | some e =>
    simp only [hb, Option.map_some', Option.getD_some]
    rcases bestBy_mem hb with ⟨hmem, _⟩
    obtain ⟨i', g⟩ := e
    exact (List.mem_enum hmem).1

lemma addSingleStudent_perm (ctx : Ctx) (ps : List Group) (x : SId) :
    ((addSingleStudent ctx ps x).flatten).Perm (ps.flatten ++ [x]) := by
  unfold addSingleStudent
  cases hb : bestHostIdx ctx ps x with
  | some i => exact flatten_set_append ps [x] i (bestHostIdx_spec hb).1
  | none =>
    rw [List.flatten_append]
    simp

lemma elimStep_perm (ctx : Ctx) (ps : List Group) (x : SId) :
    ((elimStep ctx ps x).flatten).Perm (ps.flatten ++ [x]) := by
  unfold elimStep
  cases hb : bestHostIdx ctx ps x with
  | some i => exact flatten_set_append ps [x] i (bestHostIdx_spec hb).1
  | none =>
    by_cases he : ps.isEmpty
    · rw [if_pos he, List.flatten_append]
      simp
    · rw [if_neg he]
      exact flatten_set_append ps [x] _
        (smallestIdx_lt (fun hc => he (by rw [hc]; rfl)))

lemma pairUp_cons2 (a b : SId) (rest : List SId) (ps : List Group) :
    pairUp (a :: b :: rest) ps = pairUp rest (ps ++ [[a, b]]) := rfl

lemma pairUp_perm : ∀ (rem : List SId) (ps : List Group),
    ((pairUp rem ps).1.flatten ++ (pairUp rem ps).2).Perm (ps.flatten ++ rem) := by
  have main : ∀ (n : Nat) (rem : List SId) (ps : List Group), rem.length ≤ n →
      ((pairUp rem ps).1.flatten ++ (pairUp rem ps).2).Perm (ps.flatten ++ rem) := by
    intro n
    induction n with
    | zero =>
      intro rem ps hlen
      have : rem = [] := List.length_eq_zero.mp (by omega)
      subst this
      exact List.Perm.refl _
    | succ n ih =>
      intro rem ps hlen
      match rem with
      | [] => exact List.Perm.refl _
      | [a] => exact List.Perm.refl _
      | a :: b :: rest =>
        rw [pairUp_cons2]
        have h1 : rest.length ≤ n := by
          simp only [List.length_cons] at hlen
          omega
        refine (ih rest (ps ++ [[a, b]]) h1).trans ?_
        rw [List.flatten_append, List.append_assoc]
        refine List.Perm.append_left _ ?_
        simp
  intro rem ps
  exact main rem.length rem ps (le_refl _)

lemma pairUp_fst_mem : ∀ (rem : List SId) (ps : List Group) (g : Group),
    g ∈ (pairUp rem ps).1 → g ∈ ps ∨ g.length = 2 := by
  have main : ∀ (n : Nat) (rem : List SId) (ps : List Group), rem.length ≤ n →
      ∀ g ∈ (pairUp rem ps).1, g ∈ ps ∨ g.length = 2 := by
    intro n
    induction n with
    | zero =>
      intro rem ps hlen g hg
      have : rem = [] := List.length_eq_zero.mp (by omega)
      subst this
      exact Or.inl hg
    | succ n ih =>
      intro rem ps hlen g hg
      match rem with
      | [] => exact Or.inl hg
      | [a] => exact Or.inl hg
      | a :: b :: rest =>
        rw [pairUp_cons2] at hg
        have h1 : rest.length ≤ n := by
          simp only [List.length_cons] at hlen
          omega
        rcases ih rest (ps ++ [[a, b]]) h1 g hg with h2 | h2
        · rcases List.mem_append.mp h2 with h3 | h3
          · exact Or.inl h3
          · right
            simp only [List.mem_singleton] at h3
            rw [h3]
            rfl
        · exact Or.inr h2
  intro rem ps g hg
  exact main rem.length rem ps (le_refl _) g hg

lemma pairUp_lens : ∀ (rem : List SId) (ps : List Group),
    (pairUp rem ps).1.length = ps.length + rem.length / 2 ∧
    (pairUp rem ps).2.length = rem.length % 2 := by
  have main : ∀ (n : Nat) (rem : List SId) (ps : List Group), rem.length ≤ n →
      (pairUp rem ps).1.length = ps.length + rem.length / 2 ∧
      (pairUp rem ps).2.length = rem.length % 2 := by
    intro n
    induction n with
    | zero =>
      intro rem ps hlen
      have : rem = [] := List.length_eq_zero.mp (by omega)
      subst this
      rw [show pairUp [] ps = (ps, []) from rfl]
      simp
    | succ n ih =>
      intro rem ps hlen
      match rem with
      | [] =>
        rw [show pairUp [] ps = (ps, []) from rfl]
        simp
      | [a] =>
        rw [show pairUp [a] ps = (ps, [a]) from rfl]
        simp
      | a :: b :: rest =>
        rw [pairUp_cons2]
        have h1 : rest.length ≤ n := by
          simp only [List.length_cons] at hlen
          omega
        rcases ih rest (ps ++ [[a, b]]) h1 with ⟨hl, hr⟩
        constructor
        · rw [hl]
          simp only [List.length_append, List.length_cons, List.length_nil]
          omega
        · rw [hr]
          simp only [List.length_cons]
          omega
  intro rem ps
  exact main rem.length rem ps (le_refl _)

lemma handleRemaining_perm (ctx : Ctx) (ps : List Group) (rem : List SId) :
    ((handleRemaining ctx ps rem).flatten).Perm (ps.flatten ++ rem) := by
  unfold handleRemaining
  by_cases he : rem.isEmpty
  · rw [if_pos he, List.isEmpty_iff.mp he]
    simp
  · rw [if_neg he]
    by_cases h1 : rem.length = 1
    · rw [if_pos h1]
      rcases List.length_eq_one.mp h1 with ⟨x, hx⟩
      subst hx
      exact addSingleStudent_perm ctx ps x
    · rw [if_neg h1]
      have hp := pairUp_perm rem ps
      have hlens := pairUp_lens rem ps
      rcases hpu : pairUp rem ps with ⟨ps2, rem2⟩
      rw [hpu] at hp hlens
      simp only at hp hlens ⊢
      by_cases h2 : rem2.isEmpty
      · rw [if_pos h2]
        rw [List.isEmpty_iff.mp h2] at hp
        simpa using hp
      · rw [if_neg h2]
        have hx : rem2 = [rem2.headD ""] := by
          rcases rem2 with _ | ⟨x, t⟩
          · simp at h2
          · have h3 := hlens.2
            simp only [List.length_cons] at h3
            have ht : t.length = 0 := by omega
            rw [List.length_eq_zero.mp ht]
            rfl
        by_cases h3 : ps2.isEmpty
        · rw [if_pos h3]
          rw [List.isEmpty_iff.mp h3] at hp ⊢
          rw [List.flatten_append]
          simpa using hp
        · rw [if_neg h3]
          have hlt : 0 < ps2.length :=
            List.length_pos.mpr (fun hc => h3 (by rw [hc]; rfl))
          refine (flatten_set_append _ [rem2.headD ""] 0 hlt).trans ?_
          rw [hx] at hp
          exact hp

lemma handleRemaining_sizes (ctx : Ctx) (ps : List Group) (rem : List SId)
    (hps : ∀ g ∈ ps, 2 ≤ g.length)
    (hrem : rem = [] ∨ (2 ≤ rem.length ∧ rem.length % 2 = 0) ∨
      (3 ≤ rem.length ∧ rem.length % 2 = 1)) :
    ∀ g ∈ handleRemaining ctx ps rem, 2 ≤ g.length := by
  intro g hg
  unfold handleRemaining at hg
  rcases hrem with h | h | h
  · subst h
    rw [if_pos (show (List.isEmpty ([] : List SId)) = true from rfl)] at hg
    exact hps g hg
  · have hne : ¬ rem.isEmpty = true := by
      rw [List.isEmpty_iff]
      intro hc
      rw [hc] at h
      simp at h
    rw [if_neg hne, if_neg (by omega)] at hg
    have hlens := pairUp_lens rem ps
    rcases hpu : pairUp rem ps with ⟨ps2, rem2⟩
    rw [hpu] at hg hlens
    simp only at hg hlens
    have hrem2 : rem2 = [] := by
      have h2 := hlens.2
      rw [h.2] at h2
      exact List.length_eq_zero.mp h2
    rw [if_pos (by rw [hrem2]; rfl)] at hg
    rcases pairUp_fst_mem rem ps g (by rw [hpu]; exact hg) with h2 | h2
    · exact hps g h2
    · omega
  · have hne : ¬ rem.isEmpty = true := by
      rw [List.isEmpty_iff]
      intro hc
      rw [hc] at h
      simp at h
    rw [if_neg hne, if_neg (by omega)] at hg
    have hlens := pairUp_lens rem ps
    rcases hpu : pairUp rem ps with ⟨ps2, rem2⟩
    rw [hpu] at hg hlens
    simp only at hg hlens
    have hmem2 : ∀ g2 ∈ ps2, 2 ≤ g2.length := by
      intro g2 hg2
      rcases pairUp_fst_mem rem ps g2 (by rw [hpu]; exact hg2) with h2 | h2
      · exact hps g2 h2
      · omega
    have hrem2 : ¬ rem2.isEmpty = true := by
      rw [List.isEmpty_iff]
      intro hc
      have h2 := hlens.2
      rw [hc, h.2] at h2
      simp at h2
    rw [if_neg hrem2] at hg
    have hps2 : ¬ ps2.isEmpty = true := by
      rw [List.isEmpty_iff]
      intro hc
      have h1 := hlens.1
      rw [hc] at h1
      simp only [List.length_nil] at h1
      omega
    rw [if_neg hps2] at hg
    rcases List.mem_or_eq_of_mem_set hg with h2 | h2
    · exact hmem2 g h2
    · rw [h2]
      have hlt : 0 < ps2.length := by
        rcases ps2 with _ | ⟨p, t⟩
        · simp at hps2
        · simp
      have : 2 ≤ (ps2.getD 0 []).length := by
        rw [List.getD_eq_getElem ps2 [] hlt]
        exact hmem2 _ (List.getElem_mem hlt)
      simp only [List.length_append, List.length_cons, List.length_nil]
      omega

lemma buildPairsIncrementally_perm (ctx : Ctx) (avail : List SId) (pref : String) :
    ((buildPairsIncrementally ctx avail pref).flatten).Perm avail := by
  unfold buildPairsIncrementally
  simp only
  refine (handleRemaining_perm ctx _ _).trans ?_
  refine (buildLoop_perm ctx pref _ _ []).trans ?_
  simpa using
    sSort_perm (fun a b => decide (studentConstraints ctx b ≤ studentConstraints ctx a))
      avail

lemma buildPairsIncrementally_sizes (ctx : Ctx) (avail : List SId) (pref : String)
    (hpar : avail.length % 2 = 0 ∨ (avail.length % 2 = 1 ∧ 3 ≤ avail.length)) :
    ∀ g ∈ buildPairsIncrementally ctx avail pref, 2 ≤ g.length := by
  unfold buildPairsIncrementally
  simp only
  have hsl : (sSort
      (fun a b => decide (studentConstraints ctx b ≤ studentConstraints ctx a))
      avail).length = avail.length :=
    (sSort_perm _ avail).length_eq
  have hout : ∀ g ∈ (buildLoop ctx pref
      ((sSort (fun a b => decide (studentConstraints ctx b ≤ studentConstraints ctx a))
        avail).length + 1)
      (sSort (fun a b => decide (studentConstraints ctx b ≤ studentConstraints ctx a)) avail)
      []).1, 2 ≤ g.length := by
    intro g hg
    rcases buildLoop_out ctx pref _ _ _ g hg with h | h | h
    · simp at h
    · omega
    · omega
  refine handleRemaining_sizes ctx _ _ hout ?_
  rcases buildLoop_leftover ctx pref
      ((sSort (fun a b => decide (studentConstraints ctx b ≤ studentConstraints ctx a))
        avail).length + 1)
      (sSort (fun a b => decide (studentConstraints ctx b ≤ studentConstraints ctx a)) avail)
      [] (by omega) with h | h | h
  · exact Or.inl h
  · rcases hpar with hp | hp
    · right; left
      exact ⟨h.1, by omega⟩
    · right; right
      exact ⟨by omega, by omega⟩
  · rcases hpar with hp | hp
    · left
      rw [h.1]
      have hz : (sSort
          (fun a b => decide (studentConstraints ctx b ≤ studentConstraints ctx a))
          avail).length = 0 := by omega
      exact List.length_eq_zero.mp hz
    · omega

lemma elimFold_perm (ctx : Ctx) : ∀ (xs : List SId) (ps : List Group),
    ((xs.foldl (elimStep ctx) ps).flatten).Perm (ps.flatten ++ xs) := by
  intro xs
  induction xs with
  | nil => intro ps; simp
  | cons x xs' ih =>
    intro ps
    rw [List.foldl_cons]
    refine (ih _).trans ?_
    refine ((elimStep_perm ctx ps x).append_right xs').trans ?_
    rw [List.append_assoc]
    exact List.Perm.refl _

lemma eliminateSingletons_perm (ctx : Ctx) (ps : List Group) :
    ((eliminateSingletonsNormalMode ctx ps).flatten).Perm ps.flatten := by
  unfold eliminateSingletonsNormalMode
  by_cases he : (ps.filter (fun g => g.length == 1)).isEmpty
  · rw [if_pos he]
  · rw [if_neg he]
    refine (elimFold_perm ctx _ _).trans ?_
    have hsing : ∀ g ∈ ps.filter (fun g => g.length == 1), g.length = 1 := by
      intro g hg
      simpa using List.of_mem_filter hg
    have hflat := flatten_of_len1 _ hsing
    have step1 : ((ps.filter (fun g => !(g.length == 1))).flatten ++
        ((ps.filter (fun g => g.length == 1)).reverse.map (fun g => g.headD ""))).Perm
        ((ps.filter (fun g => !(g.length == 1))).flatten ++
          ((ps.filter (fun g => g.length == 1)).map (fun g => g.headD ""))) := by
      refine List.Perm.append_left _ ?_
      rw [List.map_reverse]
      exact List.reverse_perm _
    refine step1.trans ?_
    rw [← hflat]
    refine List.perm_append_comm.trans ?_
    rw [← List.flatten_append]
    exact (List.filter_append_perm _ ps).flatten

lemma flatten_set_coe (ps : List Group) (g : Group) :
    ∀ i : Nat, i < ps.length →
      (↑(ps.set i g).flatten : Multiset SId) + ↑(ps.getD i []) =
        (↑ps.flatten : Multiset SId) + ↑g := by
  induction ps with
  | nil => intro i h; simp at h
  | cons p rest ih =>
    intro i h
    cases i with
    | zero =>
      simp only [List.set_cons_zero, List.getD_cons_zero, List.flatten_cons]
      show ((↑g : Multiset SId) + ↑rest.flatten) + ↑p =
        ((↑p : Multiset SId) + ↑rest.flatten) + ↑g
      rw [add_assoc, add_assoc, add_comm (↑rest.flatten : Multiset SId) (↑p : Multiset SId),
        add_comm (↑rest.flatten : Multiset SId) (↑g : Multiset SId),
        ← add_assoc, ← add_assoc, add_comm (↑g : Multiset SId) (↑p : Multiset SId)]
    | succ i2 =>
      simp only [List.set_cons_succ, List.getD_cons_succ, List.flatten_cons]
      have h2 : i2 < rest.length := by simpa using h
      have hih := ih i2 h2
      show ((↑p : Multiset SId) + ↑(rest.set i2 g).flatten) + ↑(rest.getD i2 []) =
        ((↑p : Multiset SId) + ↑rest.flatten) + ↑g
      rw [add_assoc, add_assoc, hih]

lemma flatten_set_set_perm {ps : List Group} {i j : Nat} (hij : i < j)
    (hj : j < ps.length) {g1 g2 : Group}
    (hperm : (g1 ++ g2).Perm ((ps.getD i []) ++ (ps.getD j []))) :
    (((ps.set i g1).set j g2).flatten).Perm ps.flatten := by
  have hi : i < ps.length := lt_trans hij hj
  have hj2 : j < (ps.set i g1).length := by simpa using hj
  have e1 := flatten_set_coe (ps.set i g1) g2 j hj2
  have e2 := flatten_set_coe ps g1 i hi
  have hgd : (ps.set i g1).getD j [] = ps.getD j [] := by
    rw [List.getD_eq_getElem _ [] hj2, List.getD_eq_getElem _ [] hj]
    exact List.getElem_set_ne (by omega) _
  rw [hgd] at e1
  rw [← Multiset.coe_eq_coe]
  have hpm : (↑g1 : Multiset SId) + ↑g2 = ↑(ps.getD i []) + ↑(ps.getD j []) :=
    Multiset.coe_eq_coe.mpr hperm
  have key : (↑(((ps.set i g1).set j g2).flatten) : Multiset SId) +
      (↑(ps.getD j []) + ↑(ps.getD i [])) =
      (↑ps.flatten : Multiset SId) + (↑(ps.getD j []) + ↑(ps.getD i [])) := by
    calc (↑(((ps.set i g1).set j g2).flatten) : Multiset SId) +
          (↑(ps.getD j []) + ↑(ps.getD i []))
        = ((↑(((ps.set i g1).set j g2).flatten) : Multiset SId) + ↑(ps.getD j [])) +
            ↑(ps.getD i []) := by rw [add_assoc]
      _ = ((↑(ps.set i g1).flatten : Multiset SId) + ↑g2) + ↑(ps.getD i []) := by rw [e1]
      _ = ((↑(ps.set i g1).flatten : Multiset SId) + ↑(ps.getD i [])) + ↑g2 := by
            rw [add_assoc, add_comm (↑g2 : Multiset SId), ← add_assoc]
      _ = ((↑ps.flatten : Multiset SId) + ↑g1) + ↑g2 := by rw [e2]
      _ = (↑ps.flatten : Multiset SId) + (↑g1 + ↑g2) := by rw [add_assoc]
      _ = (↑ps.flatten : Multiset SId) + (↑(ps.getD i []) + ↑(ps.getD j [])) := by rw [hpm]
      _ = (↑ps.flatten : Multiset SId) + (↑(ps.getD j []) + ↑(ps.getD i [])) := by
            rw [add_comm (↑(ps.getD i []) : Multiset SId)]
  exact add_right_cancel key

lemma trySwap_some {ctx : Ctx} {pref : String} {ps : List Group} {i j idx1 idx2 : Nat}
    {ps2 : List Group} (hs : trySwap ctx pref ps i j idx1 idx2 = some ps2) :
    (ps.getD i []).length = 2 ∧ (ps.getD j []).length = 2 ∧
    ps2 = (ps.set i ((ps.getD i []).set idx1 ((ps.getD j []).getD idx2 ""))).set j
      ((ps.getD j []).set idx2 ((ps.getD i []).getD idx1 "")) := by
  unfold trySwap at hs
  simp only at hs
  by_cases h1 : (ps.getD i []).length = 2 ∧ (ps.getD j []).length = 2
  · rw [if_pos h1] at hs
    by_cases h2 : isValidPair ctx ((ps.getD i []).set idx1 ((ps.getD j []).getD idx2 "")) = true ∧
        isValidPair ctx ((ps.getD j []).set idx2 ((ps.getD i []).getD idx1 "")) = true
    · rw [if_pos h2] at hs
      by_cases h3 : trackSat ctx (ps.getD i []) pref + trackSat ctx (ps.getD j []) pref <
          trackSat ctx ((ps.getD i []).set idx1 ((ps.getD j []).getD idx2 "")) pref +
            trackSat ctx ((ps.getD j []).set idx2 ((ps.getD i []).getD idx1 "")) pref
      · rw [if_pos h3] at hs
        exact ⟨h1.1, h1.2, (Option.some.inj hs).symm⟩
      · rw [if_neg h3] at hs
        simp at hs
    · rw [if_neg h2] at hs
      simp at hs
  · rw [if_neg h1] at hs
    simp at hs

lemma trySwap_perm {ctx : Ctx} {pref : String} {ps : List Group} {i j idx1 idx2 : Nat}
    {ps2 : List Group} (hij : i < j) (h1 : idx1 = 0 ∨ idx1 = 1)
    (h2 : idx2 = 0 ∨ idx2 = 1)
    (hs : trySwap ctx pref ps i j idx1 idx2 = some ps2) :
    ps2.flatten.Perm ps.flatten := by
  rcases trySwap_some hs with ⟨hl1, hl2, hps2⟩
  have hjlen : j < ps.length := by
    by_contra hc
    rw [List.getD_eq_default _ _ (by omega)] at hl2
    simp at hl2
  subst hps2
  refine flatten_set_set_perm hij hjlen ?_
  rcases List.length_eq_two.mp hl1 with ⟨a, b, hab⟩
  rcases List.length_eq_two.mp hl2 with ⟨c, d, hcd⟩
  rw [hab, hcd]
  rcases h1 with h1 | h1 <;> rcases h2 with h2 | h2 <;> subst h1 <;> subst h2
  · exact perm4_swap02 a b c d
  · exact perm4_swap03 a b c d
  · exact perm4_swap12 a b c d
  · exact perm4_swap13 a b c d

lemma findSwap_spec {ctx : Ctx} {pref : String} {ps ps2 : List Group}
    (h : findSwap ctx pref ps = some ps2) :
    ps2.flatten.Perm ps.flatten ∧ (∀ g ∈ ps2, g ∈ ps ∨ g.length = 2) := by
  unfold findSwap at h
  rcases List.exists_of_findSome?_eq_some h with ⟨i, hi, h⟩
  rcases List.exists_of_findSome?_eq_some h with ⟨j, hj, h⟩
  rcases List.exists_of_findSome?_eq_some h with ⟨idx1, hidx1, h⟩
  rcases List.exists_of_findSome?_eq_some h with ⟨idx2, hidx2, h⟩
  have hij : i < j := by
    have := mem_drop_range hj
    omega
  have h1 : idx1 = 0 ∨ idx1 = 1 := by simpa using hidx1
  have h2 : idx2 = 0 ∨ idx2 = 1 := by simpa using hidx2
  refine ⟨trySwap_perm hij h1 h2 h, ?_⟩
  rcases trySwap_some h with ⟨hl1, hl2, hps2⟩
  subst hps2
  intro g hg
  rcases List.mem_or_eq_of_mem_set hg with hg2 | hg2
  · rcases List.mem_or_eq_of_mem_set hg2 with hg3 | hg3
    · exact Or.inl hg3
    · right
      rw [hg3, List.length_set]
      exact hl1
  · right
    rw [hg2, List.length_set]
    exact hl2

lemma optIter_spec (ctx : Ctx) (pref : String) : ∀ (n : Nat) (ps : List Group),
    (optIter ctx pref n ps).flatten.Perm ps.flatten ∧
      (∀ g ∈ optIter ctx pref n ps, g ∈ ps ∨ g.length = 2) := by
  intro n
  induction n with
  | zero => intro ps; exact ⟨List.Perm.refl _, fun g hg => Or.inl hg⟩
  | succ n ih =>
    intro ps
    unfold optIter
    cases hf : findSwap ctx pref ps with
    | none => exact ⟨List.Perm.refl _, fun g hg => Or.inl hg⟩
    | some ps2 =>
      rcases findSwap_spec hf with ⟨hp, hm⟩
      rcases ih ps2 with ⟨hp2, hm2⟩
      refine ⟨hp2.trans hp, ?_⟩
      intro g hg
      rcases hm2 g hg with h3 | h3
      · exact hm g h3
      · exact Or.inr h3

lemma optimize_spec (ctx : Ctx) (ps : List Group) (pref : String) :
    (optimizeTrackPreferences ctx ps pref).flatten.Perm ps.flatten ∧
      (∀ g ∈ optimizeTrackPreferences ctx ps pref, g ∈ ps ∨ g.length = 2) := by
  unfold optimizeTrackPreferences
  by_cases h : pref = "none" ∨ ps.length < 2
  · rw [if_pos h]
    exact ⟨List.Perm.refl _, fun g hg => Or.inl hg⟩
  · rw [if_neg h]
    exact optIter_spec ctx pref 10 ps

lemma eliminateSingletons_id {ctx : Ctx} {ps : List Group}
    (h : ∀ g ∈ ps, 2 ≤ g.length) :
    eliminateSingletonsNormalMode ctx ps = ps := by
  unfold eliminateSingletonsNormalMode
  have hf : ps.filter (fun g => g.length == 1) = [] := by
    refine List.filter_eq_nil_iff.mpr ?_
    intro g hg
    have := h g hg
    simp only [beq_iff_eq]
    omega
  simp only [hf]
  rfl

lemma findBestTriplet_spec {ctx : Ctx} {avail : List SId} {t : List SId}
    (hnd : avail.Nodup) (h : findBestTriplet ctx avail = some t) :
    t.length = 3 ∧ t.Nodup ∧ ∀ x ∈ t, x ∈ avail := by
  unfold findBestTriplet at h
  by_cases hlen : avail.length < 3
  · rw [if_pos hlen] at h
    simp at h
  · rw [if_neg hlen] at h
    simp only at h
    rcases Option.map_eq_some'.mp h with ⟨s1, hs1, ht⟩
    rcases bestBy_mem hs1 with ⟨hmem, hvalid⟩
    rcases Option.isSome_iff_exists.mp hvalid with ⟨e, hbc⟩
    rcases e with ⟨t0, sc⟩
    rw [hbc] at ht
    simp only [Option.map_some', Option.getD_some] at ht
    have hs1avail : s1 ∈ avail :=
      ((sSort_perm _ avail).mem_iff).mp (List.mem_of_mem_take hmem)
    unfold bestCandOf at hbc
    have hmem3 : (t0, sc) ∈
        tripletCandidates ctx s1 (avail.filter (fun s => !(s == s1))) :=
      ((sSort_perm _ _).mem_iff).mp (head?_mem hbc)
    unfold tripletCandidates at hmem3
    rcases List.mem_map.mp hmem3 with ⟨p, hp, hpt⟩
    rcases p with ⟨p1, p2⟩
    have ht0 : [s1, p1, p2] = t0 := congrArg Prod.fst hpt
    have hpp : (p1, p2) ∈ allPairs (avail.filter (fun s => !(s == s1))) :=
      List.mem_of_mem_filter hp
    have hsub : [p1, p2].Sublist (avail.filter (fun s => !(s == s1))) :=
      allPairs_sublist hpp
    have hfnd : (avail.filter (fun s => !(s == s1))).Nodup := List.Nodup.filter _ hnd
    have hp1 : p1 ∈ avail.filter (fun s => !(s == s1)) :=
      hsub.subset (List.mem_cons_self _ _)
    have hp2 : p2 ∈ avail.filter (fun s => !(s == s1)) :=
      hsub.subset (List.mem_cons_of_mem _ (List.mem_cons_self _ _))
    have hp1s : p1 ≠ s1 := by
      have := List.of_mem_filter hp1
      simpa using this
    have hp2s : p2 ≠ s1 := by
      have := List.of_mem_filter hp2
      simpa using this
    have hp12 : p1 ≠ p2 := by
      have := List.Nodup.sublist hsub hfnd
      simp only [List.nodup_cons, List.mem_singleton, List.nodup_nil] at this
      exact this.1
    rw [← ht, ← ht0]
    refine ⟨rfl, ?_, ?_⟩
    · refine List.nodup_cons.mpr ⟨?_, List.nodup_cons.mpr ⟨?_, List.nodup_singleton _⟩⟩
      · intro hc
        rcases List.mem_cons.mp hc with h2 | h2
        · exact hp1s h2.symm
        · exact hp2s (List.mem_singleton.mp h2).symm
      · intro hc
        exact hp12 (List.mem_singleton.mp hc)
    · intro x hx
      rcases List.mem_cons.mp hx with h2 | h2
      · rw [h2]; exact hs1avail
      · rcases List.mem_cons.mp h2 with h3 | h3
        · rw [h3]; exact List.mem_of_mem_filter hp1
        · rw [List.mem_singleton.mp h3]; exact List.mem_of_mem_filter hp2

lemma filter_mem_perm {ids t : List SId} (hnd : ids.Nodup)
    (ht : t.Nodup) (hsub : ∀ x ∈ t, x ∈ ids) :
    (ids.filter (fun sid => decide (sid ∈ t))).Perm t := by
  refine (List.perm_ext_iff_of_nodup (List.Nodup.filter _ hnd) ht).mpr ?_
  intro a
  constructor
  · intro ha
    have := List.of_mem_filter ha
    simpa using this
  · intro ha
    exact List.mem_filter.mpr ⟨hsub a ha, by simpa using ha⟩

lemma filter_not_mem_length {ids t : List SId} (hnd : ids.Nodup)
    (ht : t.Nodup) (htlen : t.length = 3) (hsub : ∀ x ∈ t, x ∈ ids) :
    (ids.filter (fun sid => !(decide (sid ∈ t)))).length + 3 = ids.length := by
  have hlen := (filter_mem_perm hnd ht hsub).length_eq
  have hsum : (ids.filter (fun sid => decide (sid ∈ t))).length +
      (ids.filter (fun sid => !(decide (sid ∈ t)))).length = ids.length :=
    (List.length_eq_length_filter_add _).symm
  omega

lemma flatten_map_singleton : ∀ l : List Student,
    (l.map (fun s => [s.id])).flatten = l.map (fun s => s.id) := by
  intro l
  induction l with
  | nil => rfl
  | cons s rest ih =>
    simp only [List.map_cons, List.flatten_cons, List.singleton_append, ih]

/-! ## Conservation in the larger-groups mode -/

lemma enum_getD {α : Type} {l : List α} {e : Nat × α} (d : α) (h : e ∈ l.enum) :
    l.getD e.1 d = e.2 := by
  have h1 := List.fst_lt_of_mem_enum h
  have h2 : l[e.1]? = some e.2 := by
    rcases e with ⟨i, x⟩
    exact List.mem_enum_iff_getElem?.mp h
  rw [List.getD_eq_getElem _ _ h1]
  rw [List.getElem?_eq_getElem h1] at h2
  exact Option.some.inj h2

lemma set_enum_append_perm {groups : List Group} {e : Nat × Group}
    (he : e ∈ groups.enum) (x : Group) :
    ((groups.set e.1 (e.2 ++ x)).flatten).Perm (groups.flatten ++ x) := by
  have h1 := List.fst_lt_of_mem_enum he
  have h2 := enum_getD ([] : Group) he
  rw [← h2]
  exact flatten_set_append groups x e.1 h1

lemma addSingleLarger_perm {ctx : Ctx} {groups g2 : List Group} {x : SId}
    (h : addSingleLarger ctx groups x = some g2) :
    g2.flatten.Perm (groups.flatten ++ [x]) := by
  unfold addSingleLarger at h
  rcases List.exists_of_findSome?_eq_some h with ⟨e, he, h⟩
  have he2 : e ∈ groups.enum := ((sSort_perm _ _).mem_iff).mp he
  by_cases hc : e.2.length < 4 ∧ canAddToGroup ctx x e.2 = true
  · rw [if_pos hc] at h
    rw [← Option.some.inj h]
    exact set_enum_append_perm he2 [x]
  · rw [if_neg hc] at h
    simp at h

lemma addBothToPair_perm {ctx : Ctx} {groups g2 : List Group} {a b : SId}
    (h : addBothToPair ctx groups a b = some g2) :
    g2.flatten.Perm (groups.flatten ++ [a, b]) := by
  unfold addBothToPair at h
  rcases List.exists_of_findSome?_eq_some h with ⟨e, he, h⟩
  split at h
  · rw [← Option.some.inj h]
    exact set_enum_append_perm he [a, b]
  · simp at h

lemma addOneToTriple_perm {ctx : Ctx} {groups g2 : List Group} {x : SId}
    (h : addOneToTriple ctx groups x = some g2) :
    g2.flatten.Perm (groups.flatten ++ [x]) := by
  unfold addOneToTriple at h
  rcases List.exists_of_findSome?_eq_some h with ⟨e, he, h⟩
  by_cases hc : e.2.length = 3 ∧ canAddToGroup ctx x e.2 = true
  · rw [if_pos hc] at h
    rw [← Option.some.inj h]
    exact set_enum_append_perm he [x]
  · rw [if_neg hc] at h
    simp at h

lemma findBestLargerGroup_sub {ctx : Ctx} {R : Rand} {k : Nat} {avail : List SId}
    {size : Nat} {pref : String} {g : Group} (hR : RandOK R)
    (h : findBestLargerGroup ctx R k avail size pref = some g) :
    (↑g : Multiset SId) ≤ ↑avail := by
  unfold findBestLargerGroup at h
  by_cases hlen : avail.length < size
  · rw [if_pos hlen] at h
    simp at h
  · rw [if_neg hlen] at h
    simp only at h
    rcases bestBy_mem h with ⟨hmem, _⟩
    have h2 : g ∈ R.shuffleGroups k (List.sublistsLen size avail) :=
      List.mem_of_mem_take hmem
    have h3 : g ∈ List.sublistsLen size avail := (hR.2 k _).mem_iff.mp h2
    exact Multiset.coe_le.mpr (List.mem_sublistsLen.mp h3).1.subperm

lemma findBestPairFromList_sub {ctx : Ctx} {avail : List SId} {pref : String}
    {p : Group} (h : findBestPairFromList ctx avail pref = some p) :
    (↑p : Multiset SId) ≤ ↑avail := by
  unfold findBestPairFromList at h
  by_cases hlen : avail.length < 2
  · rw [if_pos hlen] at h
    simp at h
  · rw [if_neg hlen] at h
    rcases Option.map_eq_some'.mp h with ⟨pr, hpr, hp⟩
    rcases bestBy_mem hpr with ⟨hmem, _⟩
    rcases pr with ⟨x, y⟩
    rw [← hp]
    exact Multiset.coe_le.mpr (allPairs_sublist hmem).subperm

lemma phase1_perm (ctx : Ctx) (R : Rand) (pref : String) (hR : RandOK R) :
    ∀ (n k : Nat) (rem : List SId) (groups : List Group),
      ((phase1 ctx R pref n k rem groups).1.flatten ++
        (phase1 ctx R pref n k rem groups).2.1).Perm (groups.flatten ++ rem) := by
  intro n
  induction n with
  | zero => intro k rem groups; exact List.Perm.refl _
  | succ n ih =>
    intro k rem groups
    unfold phase1
    by_cases h4 : rem.length < 4
    · rw [if_pos h4]
    · rw [if_neg h4]
      cases hf : findBestLargerGroup ctx R k rem 4 pref with
      | none => exact List.Perm.refl _
      | some g =>
        refine (ih (k + 1) (removeAll rem g) (groups ++ [g])).trans ?_
        rw [List.flatten_append]
        simp only [List.flatten_cons, List.flatten_nil, List.append_nil]
        rw [List.append_assoc]
        exact List.Perm.append_left _ (removeAll_perm (findBestLargerGroup_sub hR hf))

lemma phase2_perm (ctx : Ctx) (R : Rand) (pref : String) (hR : RandOK R) :
    ∀ (n k : Nat) (rem : List SId) (groups : List Group),
      ((phase2 ctx R pref n k rem groups).1.flatten ++
        (phase2 ctx R pref n k rem groups).2.1).Perm (groups.flatten ++ rem) := by
  intro n
  induction n with
  | zero => intro k rem groups; exact List.Perm.refl _
  | succ n ih =>
    intro k rem groups
    unfold phase2
    by_cases h3 : rem.length < 3
    · rw [if_pos h3]
    · rw [if_neg h3]
      cases hf : findBestLargerGroup ctx R k rem 3 pref with
      | none => exact List.Perm.refl _
      | some g =>
        refine (ih (k + 1) (removeAll rem g) (groups ++ [g])).trans ?_
        rw [List.flatten_append]
        simp only [List.flatten_cons, List.flatten_nil, List.append_nil]
        rw [List.append_assoc]
        exact List.Perm.append_left _ (removeAll_perm (findBestLargerGroup_sub hR hf))

lemma phase3_perm (ctx : Ctx) (R : Rand) (pref : String) (hR : RandOK R) :
    ∀ (fuel k : Nat) (rem : List SId) (groups : List Group),
      ((phase3 ctx R pref fuel k rem groups).1.flatten).Perm
        (groups.flatten ++ rem) := by
  intro fuel
  induction fuel with
  | zero =>
    intro k rem groups
    rw [show phase3 ctx R pref 0 k rem groups =
      (if rem.isEmpty then groups else groups ++ [rem], k) from rfl]
    by_cases he : rem.isEmpty
    · rw [if_pos he]
      show (groups.flatten).Perm (groups.flatten ++ rem)
      rw [List.isEmpty_iff.mp he]
      simp
    · rw [if_neg he]
      show ((groups ++ [rem]).flatten).Perm (groups.flatten ++ rem)
      rw [List.flatten_append]
      simp only [List.flatten_cons, List.flatten_nil, List.append_nil]
      exact List.Perm.refl _
  | succ fuel ih =>
    intro k rem groups
    rcases rem with _ | ⟨a, _ | ⟨b, _ | ⟨c, rest⟩⟩⟩
    · show (groups.flatten).Perm (groups.flatten ++ [])
      simp
    · rw [show phase3 ctx R pref (fuel + 1) k [a] groups =
        (match addSingleLarger ctx groups a with
          | some g2 => phase3 ctx R pref fuel k [] g2
          | none => phase3 ctx R pref fuel k [] (groups ++ [[a]])) from rfl]
      cases hf : addSingleLarger ctx groups a with
      | some g2 =>
        refine (ih k [] g2).trans ?_
        rw [List.append_nil]
        exact addSingleLarger_perm hf
      | none =>
        refine (ih k [] _).trans ?_
        rw [List.append_nil, List.flatten_append]
        simp only [List.flatten_cons, List.flatten_nil, List.append_nil]
        exact List.Perm.refl _
    · rw [show phase3 ctx R pref (fuel + 1) k [a, b] groups =
        (match addBothToPair ctx groups a b with
          | some g2 => phase3 ctx R pref fuel k [] g2
          | none =>
            match addOneToTriple ctx groups a with
            | some g2 => phase3 ctx R pref fuel k [b] g2
            | none => phase3 ctx R pref fuel k [] (groups ++ [[a, b]])) from rfl]
      cases hf : addBothToPair ctx groups a b with
      | some g2 =>
        refine (ih k [] g2).trans ?_
        rw [List.append_nil]
        exact addBothToPair_perm hf
      | none =>
        cases hg : addOneToTriple ctx groups a with
        | some g2 =>
          refine (ih k [b] g2).trans ?_
          refine ((addOneToTriple_perm hg).append_right [b]).trans ?_
          rw [List.append_assoc]
          exact List.Perm.refl _
        | none =>
          refine (ih k [] _).trans ?_
          rw [List.append_nil, List.flatten_append]
          simp only [List.flatten_cons, List.flatten_nil, List.append_nil]
          exact List.Perm.refl _
    · rw [show phase3 ctx R pref (fuel + 1) k (a :: b :: c :: rest) groups =
        (match findBestLargerGroup ctx R k (a :: b :: c :: rest) 3 pref with
          | some g => phase3 ctx R pref fuel (k + 1)
              (removeAll (a :: b :: c :: rest) g) (groups ++ [g])
          | none =>
            match findBestPairFromList ctx (a :: b :: c :: rest) pref with
            | some p => phase3 ctx R pref fuel (k + 1)
                (removeAll (a :: b :: c :: rest) p) (groups ++ [p])
            | none => phase3 ctx R pref fuel (k + 1) (a :: b :: c :: rest).tail
                (groups ++ [(a :: b :: c :: rest).take 1])) from rfl]
      cases hf : findBestLargerGroup ctx R k (a :: b :: c :: rest) 3 pref with
      | some g =>
        refine (ih (k + 1) (removeAll (a :: b :: c :: rest) g) (groups ++ [g])).trans ?_
        rw [List.flatten_append]
        simp only [List.flatten_cons, List.flatten_nil, List.append_nil]
        rw [List.append_assoc]
        exact List.Perm.append_left _ (removeAll_perm (findBestLargerGroup_sub hR hf))
      | none =>
        cases hp : findBestPairFromList ctx (a :: b :: c :: rest) pref with
        | some p =>
          refine (ih (k + 1) (removeAll (a :: b :: c :: rest) p) (groups ++ [p])).trans ?_
          rw [List.flatten_append]
          simp only [List.flatten_cons, List.flatten_nil, List.append_nil]
          rw [List.append_assoc]
          exact List.Perm.append_left _ (removeAll_perm (findBestPairFromList_sub hp))
        | none =>
          refine (ih (k + 1) (a :: b :: c :: rest).tail
            (groups ++ [(a :: b :: c :: rest).take 1])).trans ?_
          rw [List.flatten_append]
          simp only [List.flatten_cons, List.flatten_nil, List.append_nil]
          rw [List.append_assoc]
          exact List.Perm.refl _

lemma generateLargerGroups_perm (ctx : Ctx) (R : Rand) (pref : String)
    (hR : RandOK R) :
    ((generateLargerGroups ctx R pref).flatten).Perm ctx.ids := by
  unfold generateLargerGroups
  simp only
  refine ((hR.2 _ _).flatten).trans ?_
  refine (phase3_perm ctx R pref hR _ _ _ _).trans ?_
  refine (phase2_perm ctx R pref hR _ _ _ _).trans ?_
  refine (phase1_perm ctx R pref hR _ _ _ _).trans ?_
  refine (hR.1 0 _).trans ?_
  exact sSort_perm _ _

/-! ## C1: the output is a complete partition of the input ids -/

/-- CLAIM C1: for every present list (any size) and every history, in both the
pair mode and the larger-groups mode, under any real shuffle outcome and with
distinct member ids, the concatenation of the groups `generate_pairings`
returns is a permutation of the input id list — every id appears in exactly
one group, no duplicates, no omissions.  Totality of the embedding models
that the Python never raises: every search failure falls through to a relaxed
or fallback branch. -/
theorem claim_C1 (ctx : Ctx) (R : Rand) (pref : String) (mode : Bool)
    (hR : RandOK R) (hnd : ctx.ids.Nodup) :
    ((generatePairings ctx R pref mode).flatten).Perm ctx.ids := by
  unfold generatePairings
  by_cases h1 : ctx.students.length ≤ 1
  · rw [if_pos h1, flatten_map_singleton]
    exact List.Perm.refl _
  · rw [if_neg h1]
    by_cases h2 : ctx.students.length = 2
    · rw [if_pos h2]
      rcases List.length_eq_two.mp h2 with ⟨s1, s2, hs⟩
      simp only [Ctx.ids, hs]
      simp
    · rw [if_neg h2]
      cases mode with
      | true =>
        rw [if_pos rfl]
        exact generateLargerGroups_perm ctx R pref hR
      | false =>
        rw [if_neg Bool.false_ne_true]
        have main : ∀ P : List Group, P.flatten.Perm ctx.ids →
            ((R.shuffleGroups 0
              (optimizeTrackPreferences ctx
                (eliminateSingletonsNormalMode ctx P) pref)).flatten).Perm
              ctx.ids := by
          intro P hP
          refine ((hR.2 0 _).flatten).trans ?_
          refine ((optimize_spec ctx _ pref).1).trans ?_
          exact (eliminateSingletons_perm ctx P).trans hP
        refine main _ ?_
        by_cases hodd : ctx.ids.length % 2 = 1
        · rw [if_pos hodd]
          cases hft : findBestTriplet ctx ctx.ids with
          | some t =>
            rcases findBestTriplet_spec hnd hft with ⟨htl, htn, hts⟩
            rw [List.flatten_append]
            simp only [List.flatten_cons, List.flatten_nil, List.append_nil]
            refine ((buildPairsIncrementally_perm ctx _ pref).append_right t).trans ?_
            refine List.perm_append_comm.trans ?_
            refine (List.Perm.append_right _ (filter_mem_perm hnd htn hts).symm).trans ?_
            exact List.filter_append_perm _ ctx.ids
          | none =>
            exact buildPairsIncrementally_perm ctx ctx.ids pref
        · rw [if_neg hodd]
          exact buildPairsIncrementally_perm ctx ctx.ids pref

/-- Witness for C1: a concrete run over four members with no history. -/
theorem claim_C1_witness :
    RandOK idRand ∧
    (Ctx.ids ⟨[pstu "a" "T" 0, pstu "b" "T" 0, pstu "c" "T" 0, pstu "d" "T" 0],
      []⟩).Nodup ∧
    ((generatePairings
        ⟨[pstu "a" "T" 0, pstu "b" "T" 0, pstu "c" "T" 0, pstu "d" "T" 0], []⟩
        idRand "none" false).flatten).Perm
      (Ctx.ids ⟨[pstu "a" "T" 0, pstu "b" "T" 0, pstu "c" "T" 0, pstu "d" "T" 0],
        []⟩) :=
  ⟨⟨fun _ l => List.Perm.refl l, fun _ l => List.Perm.refl l⟩, by decide,
    claim_C1 _ idRand "none" false
      ⟨fun _ l => List.Perm.refl l, fun _ l => List.Perm.refl l⟩ (by decide)⟩

/-! ## C2: no singleton groups -/

/-- CLAIM C2 (counterexample): in the larger-groups mode the claim is false.
With four members whose every pair is forbidden (they all shared a group in
the most recent session), every combination search fails and the clean-up
loop's last-resort branch emits the singletons `["a"]` and `["b"]`. -/
theorem claim_C2_counterexample :
    ¬ (∀ g ∈ generatePairings
        ⟨[pstu "a" "T" 0, pstu "b" "T" 0, pstu "c" "T" 0, pstu "d" "T" 0],
          [[["a", "b", "c", "d"]]]⟩ idRand "none" true, 2 ≤ g.length) := by
  decide

/-- CLAIM C2 (amended): in the default pair mode the claim holds — for every
history, preference, real shuffle outcome, and at least two present members
with distinct ids, every output group has at least 2 members. -/
theorem claim_C2_amended (ctx : Ctx) (R : Rand) (pref : String)
    (hR : RandOK R) (hnd : ctx.ids.Nodup) (hlen : 2 ≤ ctx.students.length) :
    ∀ g ∈ generatePairings ctx R pref false, 2 ≤ g.length := by
  have hids : ctx.ids.length = ctx.students.length := by
    simp [Ctx.ids]
  intro g hg
  unfold generatePairings at hg
  rw [if_neg (by omega)] at hg
  by_cases h2 : ctx.students.length = 2
  · rw [if_pos h2] at hg
    simp only [List.mem_singleton] at hg
    subst hg
    exact le_refl _
  · rw [if_neg h2, if_neg Bool.false_ne_true] at hg
    have main : ∀ P : List Group, (∀ g2 ∈ P, 2 ≤ g2.length) →
        g ∈ R.shuffleGroups 0
          (optimizeTrackPreferences ctx (eliminateSingletonsNormalMode ctx P) pref) →
        2 ≤ g.length := by
      intro P hP hgP
      rw [eliminateSingletons_id hP] at hgP
      rcases (optimize_spec ctx P pref).2 g ((hR.2 0 _).mem_iff.mp hgP) with h3 | h3
      · exact hP g h3
      · omega
    by_cases hodd : ctx.ids.length % 2 = 1
    · rw [if_pos hodd] at hg
      cases hft : findBestTriplet ctx ctx.ids with
      | some t =>
        rw [hft] at hg
        rcases findBestTriplet_spec hnd hft with ⟨htl, htn, hts⟩
        have hcount := filter_not_mem_length hnd htn htl hts
        refine main _ ?_ hg
        intro g2 hg2
        rcases List.mem_append.mp hg2 with h3 | h3
        · exact buildPairsIncrementally_sizes ctx _ pref (Or.inl (by omega)) g2 h3
        · rw [List.mem_singleton.mp h3]
          omega
      | none =>
        rw [hft] at hg
        exact main _
          (buildPairsIncrementally_sizes ctx _ pref (Or.inr ⟨hodd, by omega⟩)) hg
    · rw [if_neg hodd] at hg
      exact main _ (buildPairsIncrementally_sizes ctx _ pref (Or.inl (by omega))) hg

/-- Witness for C2 (amended): a concrete pair-mode run over five members. -/
theorem claim_C2_amended_witness :
    RandOK idRand ∧
    (Ctx.ids ⟨[pstu "a" "T" 0, pstu "b" "T" 0, pstu "c" "T" 0, pstu "d" "T" 0,
      pstu "e" "T" 0], []⟩).Nodup ∧
    2 ≤ ([pstu "a" "T" 0, pstu "b" "T" 0, pstu "c" "T" 0, pstu "d" "T" 0,
      pstu "e" "T" 0] : List Student).length ∧
    ∀ g ∈ generatePairings
        ⟨[pstu "a" "T" 0, pstu "b" "T" 0, pstu "c" "T" 0, pstu "d" "T" 0,
          pstu "e" "T" 0], []⟩ idRand "none" false, 2 ≤ g.length :=
  ⟨⟨fun _ l => List.Perm.refl l, fun _ l => List.Perm.refl l⟩, by decide, by decide,
    claim_C2_amended _ idRand "none"
      ⟨fun _ l => List.Perm.refl l, fun _ l => List.Perm.refl l⟩
      (by decide) (by decide)⟩

/-! ## C3: the forbidden pairs of the last session are avoided -/

/-- CLAIM C3: four members `A,B,C,D` whose most recent prior session paired
`(A,B)` and `(C,D)`: pair mode over the same four members returns — for any
real shuffle outcome — one of the two partitions avoiding both forbidden
pairs; the code deterministically builds `(A,C)+(B,D)` before the final
shuffle. -/
theorem claim_C3 (R : Rand) (hR : RandOK R) :
    (generatePairings
      ⟨[pstu "A" "T" 0, pstu "B" "T" 0, pstu "C" "T" 0, pstu "D" "T" 0],
        [[["A", "B"], ["C", "D"]]]⟩ R "none" false).Perm
      [["A", "C"], ["B", "D"]] ∨
    (generatePairings
      ⟨[pstu "A" "T" 0, pstu "B" "T" 0, pstu "C" "T" 0, pstu "D" "T" 0],
        [[["A", "B"], ["C", "D"]]]⟩ R "none" false).Perm
      [["A", "D"], ["B", "C"]] := by
  left
  have he : generatePairings
      ⟨[pstu "A" "T" 0, pstu "B" "T" 0, pstu "C" "T" 0, pstu "D" "T" 0],
        [[["A", "B"], ["C", "D"]]]⟩ R "none" false =
      R.shuffleGroups 0 [["A", "C"], ["B", "D"]] := rfl
  rw [he]
  exact hR.2 0 _

/-- Witness for C3: the identity shuffle outcome. -/
theorem claim_C3_witness :
    RandOK idRand ∧
    ((generatePairings
      ⟨[pstu "A" "T" 0, pstu "B" "T" 0, pstu "C" "T" 0, pstu "D" "T" 0],
        [[["A", "B"], ["C", "D"]]]⟩ idRand "none" false).Perm
      [["A", "C"], ["B", "D"]] ∨
    (generatePairings
      ⟨[pstu "A" "T" 0, pstu "B" "T" 0, pstu "C" "T" 0, pstu "D" "T" 0],
        [[["A", "B"], ["C", "D"]]]⟩ idRand "none" false).Perm
      [["A", "D"], ["B", "C"]]) :=
  ⟨⟨fun _ l => List.Perm.refl l, fun _ l => List.Perm.refl l⟩,
    claim_C3 idRand ⟨fun _ l => List.Perm.refl l, fun _ l => List.Perm.refl l⟩⟩

/-! ## C7: group-size profile on 6 and 7 members -/

/-- CLAIM C7: with empty history and preference "none" in pair mode, any real
run on 6 members returns exactly three groups of size 2, and on 7 members
exactly one group of size 3 and two of size 2. -/
theorem claim_C7 (R : Rand) (hR : RandOK R) :
    ((generatePairings
      ⟨[pstu "a" "T" 0, pstu "b" "T" 0, pstu "c" "T" 0, pstu "d" "T" 0,
        pstu "e" "T" 0, pstu "f" "T" 0], []⟩ R "none" false).map
      (fun g => g.length)).Perm [2, 2, 2] ∧
    ((generatePairings
      ⟨[pstu "a" "T" 0, pstu "b" "T" 0, pstu "c" "T" 0, pstu "d" "T" 0,
        pstu "e" "T" 0, pstu "f" "T" 0, pstu "g" "T" 0], []⟩ R "none" false).map
      (fun g => g.length)).Perm [3, 2, 2] := by
  constructor
  · have he : generatePairings
        ⟨[pstu "a" "T" 0, pstu "b" "T" 0, pstu "c" "T" 0, pstu "d" "T" 0,
          pstu "e" "T" 0, pstu "f" "T" 0], []⟩ R "none" false =
        R.shuffleGroups 0 [["a", "b"], ["c", "d"], ["e", "f"]] := rfl
    rw [he]
    exact ((hR.2 0 _).map _).trans (by decide)
  · have he : generatePairings
        ⟨[pstu "a" "T" 0, pstu "b" "T" 0, pstu "c" "T" 0, pstu "d" "T" 0,
          pstu "e" "T" 0, pstu "f" "T" 0, pstu "g" "T" 0], []⟩ R "none" false =
        R.shuffleGroups 0 [["d", "e"], ["f", "g"], ["a", "b", "c"]] := rfl
    rw [he]
    exact ((hR.2 0 _).map _).trans (by decide)

/-- Witness for C7: the identity shuffle outcome. -/
theorem claim_C7_witness :
    RandOK idRand ∧
    (((generatePairings
      ⟨[pstu "a" "T" 0, pstu "b" "T" 0, pstu "c" "T" 0, pstu "d" "T" 0,
        pstu "e" "T" 0, pstu "f" "T" 0], []⟩ idRand "none" false).map
      (fun g => g.length)).Perm [2, 2, 2] ∧
    ((generatePairings
      ⟨[pstu "a" "T" 0, pstu "b" "T" 0, pstu "c" "T" 0, pstu "d" "T" 0,
        pstu "e" "T" 0, pstu "f" "T" 0, pstu "g" "T" 0], []⟩ idRand "none" false).map
      (fun g => g.length)).Perm [3, 2, 2]) :=
  ⟨⟨fun _ l => List.Perm.refl l, fun _ l => List.Perm.refl l⟩,
    claim_C7 idRand ⟨fun _ l => List.Perm.refl l, fun _ l => List.Perm.refl l⟩⟩

/-! ## C8: the "same"-track preference pairs like with like -/

/-- CLAIM C8: four members, two of track "X" and two of track "Y", empty
history, preference "same": any real pair-mode run returns exactly the
same-track pairing (the members are listed interleaved, so the optimizer's
swap pass genuinely has to act). -/
theorem claim_C8 (R : Rand) (hR : RandOK R) :
    (generatePairings
      ⟨[pstu "x1" "X" 0, pstu "y1" "Y" 0, pstu "x2" "X" 0, pstu "y2" "Y" 0], []⟩
      R "same" false).Perm [["x1", "x2"], ["y1", "y2"]] := by
  have he : generatePairings
      ⟨[pstu "x1" "X" 0, pstu "y1" "Y" 0, pstu "x2" "X" 0, pstu "y2" "Y" 0], []⟩
      R "same" false = R.shuffleGroups 0 [["x1", "x2"], ["y1", "y2"]] := rfl
  rw [he]
  exact hR.2 0 _

/-- Witness for C8: the identity shuffle outcome. -/
theorem claim_C8_witness :
    RandOK idRand ∧
    (generatePairings
      ⟨[pstu "x1" "X" 0, pstu "y1" "Y" 0, pstu "x2" "X" 0, pstu "y2" "Y" 0], []⟩
      idRand "same" false).Perm [["x1", "x2"], ["y1", "y2"]] :=
  ⟨⟨fun _ l => List.Perm.refl l, fun _ l => List.Perm.refl l⟩,
    claim_C8 idRand ⟨fun _ l => List.Perm.refl l, fun _ l => List.Perm.refl l⟩⟩


/-- CLAIM C10 (counterexample): with a present member whose id is the empty
string (falsy in Python), both partner checks `if best_partner:` fail even
though the searches did select a partner, and the fallback branch that
re-appends the student and breaks IS reached.  The pool is the constraint
sort of the member ids, exactly as `_build_pairs_incrementally` produces it. -/
theorem claim_C10_counterexample :
    (buildLoop ⟨[pstu "a" "T" 0, pstu "" "T" 0, pstu "c" "T" 5, pstu "d" "T" 5], []⟩
        "none" 5
        (sSort
          (fun a b =>
            decide (studentConstraints ⟨[pstu "a" "T" 0, pstu "" "T" 0, pstu "c" "T" 5, pstu "d" "T" 5], []⟩ b ≤
              studentConstraints ⟨[pstu "a" "T" 0, pstu "" "T" 0, pstu "c" "T" 5, pstu "d" "T" 5], []⟩ a))
          (Ctx.ids ⟨[pstu "a" "T" 0, pstu "" "T" 0, pstu "c" "T" 5, pstu "d" "T" 5], []⟩))
        []).2.2 = true := by
  decide

/-- CLAIM C10 (amended): whenever no member id is the empty string, the
relaxed search always selects a partner (all relaxed scores are finite) and
its result is truthy, so the fallback branch is unreachable: the loop never
exits through the `break`. -/
theorem claim_C10_amended (ctx : Ctx) (pref : String) (fuel : Nat)
    (remaining : List SId) (ps : List Group) (h : ∀ x ∈ remaining, x ≠ "") :
    (buildLoop ctx pref fuel remaining ps).2.2 = false := by
  induction fuel generalizing remaining ps with
  | zero => rfl
  | succ n ih =>
    unfold buildLoop
    by_cases h2 : remaining.length < 2
    · rw [if_pos h2]
    · rw [if_neg h2]
      by_cases h3 : remaining.length = 3
      · rw [if_pos h3]
      · rw [if_neg h3]
        cases remaining with
        | nil => rfl
        | cons s1 rest =>
          simp only
          by_cases hbp : pyTruthy (strictBest ctx pref s1 rest).1
          · rw [if_pos hbp]
            apply ih
            intro x hx
            exact h x (List.mem_cons_of_mem _ (List.mem_of_mem_erase hx))
          · rw [if_neg hbp]
            by_cases hrp : pyTruthy (relaxedBest ctx pref s1 rest).1
            · rw [if_pos hrp]
              apply ih
              intro x hx
              exact h x (List.mem_cons_of_mem _ (List.mem_of_mem_erase hx))
            · exfalso
              apply hrp
              have hne : rest ≠ [] := by
                intro hc
                rw [hc] at h2
                simp at h2
              rcases Option.isSome_iff_exists.mp
                  (relaxedBest_isSome ctx pref s1 hne) with ⟨p, hp⟩
              rw [pyTruthy_iff]
              exact ⟨p, hp, h p (List.mem_cons_of_mem _ (relaxedBest_mem hp))⟩

/-- Witness for C10 (amended): a concrete 4-member pool with ordinary ids. -/
theorem claim_C10_amended_witness :
    (buildLoop ⟨[pstu "a" "T" 0, pstu "b" "T" 0], [[["a", "b"]]]⟩ "none" 5
        ["a", "b", "c", "d"] []).2.2 = false :=
  claim_C10_amended _ _ _ _ _ (by decide)

/-! ## C9: degenerate sizes -/

/-- CLAIM C9: with 0 present members `generate_pairings` returns no groups,
and with 1 present member it returns that member as the single
(boundary-case) singleton group; neither case can fail. -/
theorem claim_C9_boundary (s : Student) (sessions : List Session) (R : Rand)
    (pref : String) (mode : Bool) :
    generatePairings ⟨[], sessions⟩ R pref mode = [] ∧
    generatePairings ⟨[s], sessions⟩ R pref mode = [[s.id]] := by
  constructor <;> simp [generatePairings]

end StudentPairing
